import Mathlib

/-!
Shallow embedding of the vidar.js utility core (src/unnamed/part_000) and
proofs about it.

Modelling conventions:
* JavaScript values are modelled by the inductive `JSValue`.  Numbers are
  exact rationals (`ℚ`); the special float values NaN and Infinity never
  appear as stored values in the claims under study and are modelled at the
  places where the source produces them (string-to-number conversion and the
  scan's `upperTime` initialiser) by `Option ℚ`, with `none` standing for
  NaN respectively Infinity.
* A JavaScript object is `JSValue.obj proto entries` where each entry is
  `(key, enumerable, value)`.  `Object.keys` returns the enumerable own
  keys, `hasOwnProperty` sees every own key, property access `o[k]` sees
  every own key.  Prototype chains beyond the identity of the prototype
  object are not modelled; `Proto` is the identity used by
  `Object.getPrototypeOf` comparisons, with `Proto.array` marking arrays
  (the only array-like values we model are genuine arrays, so
  `Array.isArray` tests for that tag).
* Function-typed values are outside the model, so the
  `typeof property == "function"` branch of `val` is absent (no `JSValue`
  is a function) and a truthy non-callable `interpolate` entry raises the
  `TypeError` that calling it would raise in JavaScript.
* Thrown strings are modelled by the structured error type `JSErr`.
-/

namespace Vidar

/-- Identity of a prototype object, as compared by Object.getPrototypeOf. -/
inductive Proto where
  | plain
  | array
  | other (n : ℕ)
deriving DecidableEq

/-- Result of the JavaScript typeof operator on the values we model. -/
inductive JSType where
  | undefinedT
  | booleanT
  | numberT
  | stringT
  | objectT
deriving DecidableEq

/-- Structured form of the strings thrown by the source. -/
inductive JSErr where
  | invalidTime
  | noLowerBound
  | noUpperBound
  | typeMismatch
  | protoMismatch
  | typeError (msg : String)
  | invalidOption (key : String)
  | invalidFont (s : String)
  | outOfFuel
deriving DecidableEq

/-- A JavaScript value.  Object entries are (key, enumerable, value). -/
inductive JSValue where
  | undef
  | null
  | bool (b : Bool)
  | num (q : ℚ)
  | str (s : String)
  | obj (proto : Proto) (entries : List (String × Bool × JSValue))

abbrev JSEntries := List (String × Bool × JSValue)

/-- The typeof operator.  Note typeof null is "object" in JavaScript. -/
def jsTypeof : JSValue → JSType
  | .undef => .undefinedT
  | .null => .objectT
  | .bool _ => .booleanT
  | .num _ => .numberT
  | .str _ => .stringT
  | .obj _ _ => .objectT

/-- Test for the value null (the comparison x === null). -/
def isNullV : JSValue → Bool
  | .null => true
  | _ => false

/-- JavaScript truthiness of a value. -/
def jsTruthy : JSValue → Bool
  | .undef => false
  | .null => false
  | .bool b => b
  | .num q => q ≠ 0
  | .str s => s ≠ ""
  | .obj _ _ => true

/-- Does the object own a property with this key (hasOwnProperty)? -/
def hasOwn : JSEntries → String → Bool
  | [], _ => false
  | (k, _, _) :: es, key => if k = key then true else hasOwn es key

/-- Property access o[key]: the value of the own property, or undefined. -/
def getOwn : JSEntries → String → JSValue
  | [], _ => .undef
  | (k, _, v) :: es, key => if k = key then v else getOwn es key

/-- Object.keys: the enumerable own keys, in entry order.  This is also the
key sequence a for-in loop visits for the objects we model (we do not model
inherited enumerable properties). -/
def jsKeys (es : JSEntries) : List String :=
  (es.filter (fun e => e.2.1)).map (fun e => e.1)

/-!
String-to-number conversion.  JavaScript's ToNumber applied to a string
(here: `+key` on object keys) yields a number or NaN.  We model the decimal
numerals actually used as keyframe keys: an optional sign followed by
digits, with an optional fraction part.  `none` stands for NaN.  The empty
string converts to 0.  (Whitespace trimming, hex/exponent numerals and the
string "Infinity" are outside the model.)
-/

/-- Splitting a character list at every occurrence of the separator, with
the semantics of JavaScript String.prototype.split on a one-character
separator: empty pieces are kept and the empty input gives one empty
piece. -/
def splitChar (sep : Char) : List Char → List (List Char)
  | [] => [[]]
  | c :: rest =>
    let r := splitChar sep rest
    if c = sep then [] :: r
    else
      match r with
      | [] => [[c]]
      | p :: ps => (c :: p) :: ps

/-- Numeric value of a nonempty all-digit character list, else none. -/
def decDigitsNat? (cs : List Char) : Option ℕ :=
  if cs ≠ [] ∧ cs.all Char.isDigit then
    some (cs.foldl (fun a c => 10 * a + (c.toNat - 48)) 0)
  else none

/-- Value of an unsigned decimal numeral that must span the whole list.
The value of digits i with fraction digits f is (i * 10^|f| + f) / 10^|f|,
built with mkRat so that it evaluates by normalisation. -/
def wholeDecMag (cs : List Char) : Option ℚ :=
  match splitChar '.' cs with
  | [i] => (decDigitsNat? i).map (fun n => (n : ℚ))
  | [i, f] =>
    match decDigitsNat? i, decDigitsNat? f with
    | some n, some m => some (mkRat (n * 10 ^ f.length + m) (10 ^ f.length))
    | some n, none => if f = [] then some ((n : ℚ)) else none
    | none, some m => if i = [] then some (mkRat m (10 ^ f.length)) else none
    | none, none => none
  | _ => none

/-- ToNumber on a string key; none models NaN. -/
def toNum (s : String) : Option ℚ :=
  match s.data with
  | [] => some 0
  | '-' :: r => (wholeDecMag r).map Neg.neg
  | '+' :: r => wholeDecMag r
  | cs => wholeDecMag cs

/-- The comparison x === NaN of the source (line 55).  In JavaScript this is
false for every x, NaN itself included, which is why the key check of
isKeyFrames never fires. -/
def strictEqNaN (x : Option ℚ) : Bool := false

/-- Key loop of isKeyFrames (source lines 52-57): return false on the first
key that is === NaN after conversion and is not one of the two reserved
names, else true. -/
def isKeyFramesLoop : List String → Bool
  | [] => true
  | key :: keys =>
    if strictEqNaN (toNum key) ∧ ¬ (key = "interpolate" ∨ key = "interpolationKeys")
    then false
    else isKeyFramesLoop keys

/-- Embeds isKeyFrames (source lines 48-59): reject non-objects, null and
arrays, then run the (ineffective, see strictEqNaN) key loop. -/
def isKeyFrames (property : JSValue) : Bool :=
  match property with
  | .obj p es =>
    if p = Proto.array then false
    else isKeyFramesLoop (jsKeys es)
  | _ => false

/-!
Interpolators (source lines 127-164).  The fourth argument objectKeys is a
JSValue because the source passes `property.interpolationKeys` through
unchecked.  The source computes `let keys = Object.keys(x1) || objectKeys`;
since Object.keys always returns an array and every array (even an empty
one) is truthy, the right operand is dead code.  We keep the shape of that
expression via arrTruthy below so that this fact is visible in the model.
-/

/-- Truthiness of the array returned by Object.keys: every JavaScript array
object, the empty one included, is truthy. -/
def arrTruthy (ks : List String) : Bool := true

/-- Reads a JavaScript array of strings as a key list; used only in the dead
fallback branch of the interpolators' key selection. -/
def asKeyList : JSValue → List String
  | .obj _ es => es.filterMap (fun e => match e.2.2 with | .str s => some s | _ => none)
  | _ => []

theorem sizeOf_getOwn_lt (es : JSEntries) (k : String)
    (h : hasOwn es k = true) : sizeOf (getOwn es k) < sizeOf es := by
  induction es with
  | nil => simp [hasOwn] at h
  | cons e tl ih =>
    obtain ⟨k1, b1, v1⟩ := e
    by_cases hk : k1 = k
    · simp [getOwn, hk]
      omega
    · simp [hasOwn, hk] at h
      simp [getOwn, hk]
      have := ih h
      omega

mutual

/-- Embeds linearInterp (source lines 127-145).  Flat (non-number,
non-object) operands are returned as x1; structured operands must share a
prototype and are rebuilt key by key; the catch-all match arm is reachable
only when an operand is null (typeof "object"), where
Object.getPrototypeOf throws. -/
def linearInterp (x1 x2 : JSValue) (t : ℚ) (objectKeys : JSValue) :
    Except JSErr JSValue :=
  if jsTypeof x1 ≠ jsTypeof x2 then .error .typeMismatch
  else if jsTypeof x1 ≠ .numberT ∧ jsTypeof x1 ≠ .objectT then .ok x1
  else
    match x1, x2 with
    | .obj p1 es1, .obj p2 es2 =>
      if p1 ≠ p2 then .error .protoMismatch
      else
        let keys := if arrTruthy (jsKeys es1) then jsKeys es1 else asKeyList objectKeys
        (linearLoop es1 es2 t keys).map (fun res => JSValue.obj p1 res)
    | .num a, .num b => .ok (.num ((1 - t) * a + t * b))
    | _, _ => .error (.typeError ("Object.getPrototypeOf called on null"))
termination_by (sizeOf x1, 0)
decreasing_by
  apply Prod.Lex.left
  have hp : 0 < sizeOf p1 := by cases p1 <;> simp
  simp
  omega

/-- Key loop of linearInterp (source lines 136-141): skip keys not own on
both sides, interpolate the rest recursively (the recursive call passes no
objectKeys, i.e. undefined), assigning results in iteration order. -/
def linearLoop (es1 es2 : JSEntries) (t : ℚ) :
    List String → Except JSErr JSEntries
  | [] => .ok []
  | k :: ks =>
    if h : hasOwn es1 k = false ∨ hasOwn es2 k = false then linearLoop es1 es2 t ks
    else do
      let v ← linearInterp (getOwn es1 k) (getOwn es2 k) t .undef
      let rest ← linearLoop es1 es2 t ks
      pure ((k, true, v) :: rest)
termination_by ks => (sizeOf es1 + 1, ks.length)
decreasing_by
  · apply Prod.Lex.right
    simp
  · apply Prod.Lex.left
    push_neg at h
    exact Nat.lt_succ_of_lt (sizeOf_getOwn_lt _ _ (by simpa using h.1))
  · apply Prod.Lex.right
    simp

end

mutual

/-- Embeds cosineInterp (source lines 146-164); identical structure to
linearInterp except for the numeric blend.  The transcendental weight
cos(pi/2 * t) is not a rational, so the model abstracts the numeric cosine
as the parameter cosFn; every structural claim holds for all cosFn. -/
def cosineInterp (cosFn : ℚ → ℚ) (x1 x2 : JSValue) (t : ℚ) (objectKeys : JSValue) :
    Except JSErr JSValue :=
  if jsTypeof x1 ≠ jsTypeof x2 then .error .typeMismatch
  else if jsTypeof x1 ≠ .numberT ∧ jsTypeof x1 ≠ .objectT then .ok x1
  else
    match x1, x2 with
    | .obj p1 es1, .obj p2 es2 =>
      if p1 ≠ p2 then .error .protoMismatch
      else
        let keys := if arrTruthy (jsKeys es1) then jsKeys es1 else asKeyList objectKeys
        (cosineLoop cosFn es1 es2 t keys).map (fun res => JSValue.obj p1 res)
    | .num a, .num b => .ok (.num (cosFn t * a + (1 - cosFn t) * b))
    | _, _ => .error (.typeError ("Object.getPrototypeOf called on null"))
termination_by (sizeOf x1, 0)
decreasing_by
  apply Prod.Lex.left
  have hp : 0 < sizeOf p1 := by cases p1 <;> simp
  simp
  omega

/-- Key loop of cosineInterp (source lines 154-159). -/
def cosineLoop (cosFn : ℚ → ℚ) (es1 es2 : JSEntries) (t : ℚ) :
    List String → Except JSErr JSEntries
  | [] => .ok []
  | k :: ks =>
    if h : hasOwn es1 k = false ∨ hasOwn es2 k = false then cosineLoop cosFn es1 es2 t ks
    else do
      let v ← cosineInterp cosFn (getOwn es1 k) (getOwn es2 k) t .undef
      let rest ← cosineLoop cosFn es1 es2 t ks
      pure ((k, true, v) :: rest)
termination_by ks => (sizeOf es1 + 1, ks.length)
decreasing_by
  · apply Prod.Lex.right
    simp
  · apply Prod.Lex.left
    push_neg at h
    exact Nat.lt_succ_of_lt (sizeOf_getOwn_lt _ _ (by simpa using h.1))
  · apply Prod.Lex.right
    simp

end

/-!
The keyframe resolver val (source lines 77-117).
-/

/-- State of the bound-locating scan (source lines 83-84).  upperTime none
models the Infinity initialiser; lowerValue and upperValue start as null
(so a stored null value is indistinguishable from no bound, exactly as in
the source's lowerValue === null test). -/
structure ScanSt where
  lowerTime : ℚ
  upperTime : Option ℚ
  lowerValue : JSValue
  upperValue : JSValue

def scanInit : ScanSt :=
  { lowerTime := 0, upperTime := none, lowerValue := .null, upperValue := .null }

/-- The comparison keyTime <= upperTime where upperTime may be Infinity. -/
def leUpper (q : ℚ) : Option ℚ → Bool
  | none => true
  | some u => decide (q ≤ u)

/-- One iteration of the for-in scan (source lines 85-97).  A key whose
conversion is NaN fails both comparisons, leaving the state unchanged. -/
def scanStep (es : JSEntries) (time : ℚ) (st : ScanSt) (keyTime : String) : ScanSt :=
  let keyValue := getOwn es keyTime
  match toNum keyTime with
  | none => st
  | some kt =>
    let st1 :=
      if st.lowerTime ≤ kt ∧ kt ≤ time then
        { st with lowerValue := keyValue, lowerTime := kt }
      else st
    if time ≤ kt ∧ leUpper kt st1.upperTime then
      { st1 with upperValue := keyValue, upperTime := some kt }
    else st1

/-- The whole scan over the object's enumerable own keys. -/
def valScan (es : JSEntries) (time : ℚ) : ScanSt :=
  (jsKeys es).foldl (scanStep es time) scanInit

/-- Keyframe branch of val (source lines 80-111).  The division's
denominator reads upperTime via getD 0; that default is unreachable because
a non-null upperValue forces upperTime to have been set. -/
def valKeyframes (es : JSEntries) (time : Option ℚ) : Except JSErr JSValue :=
  match time with
  | none => .error .invalidTime
  | some t =>
    let st := valScan es t
    if isNullV st.lowerValue then .error .noLowerBound
    else if ¬ (jsTypeof st.lowerValue = .numberT ∨ jsTypeof st.lowerValue = .objectT) then
      .ok st.lowerValue
    else if isNullV st.upperValue then .error .noUpperBound
    else if jsTypeof st.lowerValue ≠ jsTypeof st.upperValue then .error .typeMismatch
    else if st.upperTime = some st.lowerTime then .ok st.upperValue
    else
      let percentProgress := (t - st.lowerTime) / (st.upperTime.getD 0 - st.lowerTime)
      if jsTruthy (getOwn es ("interpolate")) then
        .error (.typeError ("interpolate is not a function"))
      else
        linearInterp st.lowerValue st.upperValue percentProgress
          (getOwn es ("interpolationKeys"))

/-- Embeds val (source lines 77-117).  Function-typed descriptors are not
representable in JSValue, so the typeof == "function" branch is absent and
everything that is not accepted by isKeyFrames is returned as a constant. -/
def val (property : JSValue) (time : Option ℚ) : Except JSErr JSValue :=
  match property with
  | .obj p es => if isKeyFrames (.obj p es) then valKeyframes es time else .ok (.obj p es)
  | v => .ok v

/-!
Default-option merging (source lines 7-41).  A class is a node carrying its
own defaultOptions and the ordered list of inherited sources; classes refer
to each other by numeric identity, standing for JavaScript object identity.
The breadth-first walk of getDefaultOptions keeps no visited set, so we give
it explicit fuel; none on fuel exhaustion.  Option values are modelled as
rationals.
-/

structure VariantClass where
  id : ℕ
  defaultOptions : List (String × ℚ)
  inheritedDefaultOptions : List ℕ

abbrev ClassGraph := List VariantClass

def findClass (g : ClassGraph) (i : ℕ) : Option VariantClass :=
  g.find? (fun c => c.id = i)

def lookupOpt : List (String × ℚ) → String → Option ℚ
  | [], _ => none
  | (k, v) :: ps, key => if k = key then some v else lookupOpt ps key

def hasKey (ps : List (String × ℚ)) (key : String) : Bool :=
  (lookupOpt ps key).isSome

/-- The object spread {...a, ...b}: keys of a in order with b's value where b
also owns the key, then the keys only b owns, in b's order. -/
def spreadMerge (a b : List (String × ℚ)) : List (String × ℚ) :=
  a.map (fun p => (p.1, (lookupOpt b p.1).getD p.2)) ++ b.filter (fun p => ! hasKey a p.1)

/-- Embeds the queue loop of getDefaultOptions (source lines 28-41): dequeue
a class, merge its own defaults over the accumulator (the spread puts the
current class last, so later-dequeued classes overwrite), enqueue its
inherited sources in declared order.  An id not present in the graph would
be a crash in the source (undefined.defaultOptions); it cannot arise for
closed graphs and is skipped here. -/
def getDefaultOptionsRun (g : ClassGraph) :
    ℕ → List ℕ → List (String × ℚ) → Option (List (String × ℚ))
  | 0, _, _ => none
  | _ + 1, [], acc => some acc
  | fuel + 1, i :: queue, acc =>
    match findClass g i with
    | none => getDefaultOptionsRun g fuel queue acc
    | some c =>
      getDefaultOptionsRun g fuel (queue ++ c.inheritedDefaultOptions)
        (spreadMerge acc c.defaultOptions)

/-- getDefaultOptions(clazz) with the given fuel. -/
def getDefaultOptions (g : ClassGraph) (fuel : ℕ) (clazz : ℕ) :
    Option (List (String × ℚ)) :=
  getDefaultOptionsRun g fuel [clazz] []

/-- The object applyOptions mutates: its prototype's class id and fields. -/
structure JSTarget where
  proto : ℕ
  fields : List (String × ℚ)

/-- Validation loop of applyOptions (source lines 14-16): the first override
key the merged defaults do not own raises InvalidOptionError. -/
def validateLoop (defaultOptions : List (String × ℚ)) : List String → Option JSErr
  | [] => none
  | k :: ks =>
    if ¬ hasKey defaultOptions k then some (.invalidOption k)
    else validateLoop defaultOptions ks

/-- One property assignment destObj[k] = v. -/
def setField : List (String × ℚ) → String → ℚ → List (String × ℚ)
  | [], k, v => [(k, v)]
  | (k1, v1) :: fs, k, v =>
    if k1 = k then (k1, v) :: fs else (k1, v1) :: setField fs k v

/-- The copy loop of applyOptions (source lines 22-24). -/
def assignAll (fs ms : List (String × ℚ)) : List (String × ℚ) :=
  ms.foldl (fun a p => setField a p.1 p.2) fs

/-- Embeds applyOptions (source lines 7-25).  Returns the (possibly
unchanged) target and the raised error, if any; because the source throws
during validation, before the copy loop, an error always leaves the target
untouched.  The superclass guard (line 8-9) makes the call a silent no-op
when the target's direct prototype is not the calling class's. -/
def applyOptions (g : ClassGraph) (fuel : ℕ) (options : List (String × ℚ))
    (destObj : JSTarget) (callingClass : ℕ) : JSTarget × Option JSErr :=
  if destObj.proto ≠ callingClass then (destObj, none)
  else
    match getDefaultOptions g fuel callingClass with
    | none => (destObj, some .outOfFuel)
    | some defaultOptions =>
      match validateLoop defaultOptions (options.map (fun p => p.1)) with
      | some e => (destObj, some e)
      | none =>
        let merged := spreadMerge defaultOptions options
        ({ destObj with fields := assignAll destObj.fields merged }, none)

/-!
Font parsing (source lines 207-225).  JavaScript numbers appear here as
Option ℚ with none for NaN (parseFloat of a string with no leading numeral).
parseFloat is modelled for decimal numerals (optional sign, digits, optional
fraction, arbitrary trailing garbage); exponents, "Infinity", hex and
leading whitespace do not occur in font strings and are outside the model.
-/

structure Font where
  size : Option ℚ
  family : String
  sizeUnit : String
deriving DecidableEq

/-- Numeric value of a digit list. -/
def digitsNat (ds : List Char) : ℕ :=
  ds.foldl (fun a c => 10 * a + (c.toNat - 48)) 0

/-- Magnitude part of parseFloat: longest prefix digits[.digits], with
value (i * 10^|f| + f) / 10^|f| built with mkRat. -/
def parseFloatMag (cs : List Char) : Option ℚ :=
  let ds := cs.takeWhile Char.isDigit
  let rest := cs.drop ds.length
  match rest with
  | '.' :: r2 =>
    let fs := r2.takeWhile Char.isDigit
    if ds.isEmpty ∧ fs.isEmpty then none
    else some (mkRat (digitsNat ds * 10 ^ fs.length + digitsNat fs) (10 ^ fs.length))
  | _ => if ds.isEmpty then none else some ((digitsNat ds : ℚ))

/-- parseFloat on a string: leading numeral's value, none for NaN. -/
def jsParseFloat (s : String) : Option ℚ :=
  match s.data with
  | '-' :: r => (parseFloatMag r).map Neg.neg
  | '+' :: r => parseFloatMag r
  | r => parseFloatMag r

/-- Decimal digits of the fraction r / d (with r < d), most significant
first, by long division; fuel bounds the number of emitted digits. -/
def fracDigitsAux : ℕ → ℕ → ℕ → List Char
  | 0, _, _ => []
  | fuel + 1, r, d =>
    if r = 0 then []
    else
      let r10 := r * 10
      Char.ofNat (48 + r10 / d) :: fracDigitsAux fuel (r10 % d) d

/-- Decimal rendering of a non-negative rational: integer part, then the
fraction digits of the remainder when there are any. -/
def nonnegRatToString (q : ℚ) : String :=
  let n := q.num.toNat
  let d := q.den
  if n % d = 0 then Nat.repr (n / d)
  else Nat.repr (n / d) ++ ("." : String) ++ String.mk (fracDigitsAux 40 (n % d) d)

/-- Number.prototype.toString for the numbers produced by jsParseFloat:
canonical decimal rendering; NaN prints "NaN". -/
def numToString : Option ℚ → String
  | none => "NaN"
  | some q => if q < 0 then ("-" : String) ++ nonnegRatToString (-q) else nonnegRatToString q

/-- String.prototype.substring(start): drop the first n characters. -/
def jsSubstring (s : String) (n : ℕ) : String :=
  String.mk (s.data.drop n)

/-- Embeds parseFont (source lines 219-225).  split(" ") cuts at every
single space character (splitChar has the same semantics, empty pieces
included); exactly two pieces are required.  The unit is the remainder of
the first piece after the textual length of the parsed size's canonical
rendering. -/
def parseFont (s : String) : Except JSErr Font :=
  match (splitChar ' ' s.data).map String.mk with
  | [sizeWithUnit, family] =>
    let size := jsParseFloat sizeWithUnit
    .ok { size := size, family := family,
          sizeUnit := jsSubstring sizeWithUnit (numToString size).length }
  | _ => .error (.invalidFont s)


/-!
Basic facts about the embedded definitions.
-/

theorem isKeyFramesLoop_true (ks : List String) : isKeyFramesLoop ks = true := by
  induction ks with
  | nil => rfl
  | cons k ks ih => simp [isKeyFramesLoop, strictEqNaN, ih]

/-- The NaN-comparison slip makes isKeyFrames accept every non-array
non-null object, whatever its keys. -/
theorem isKeyFrames_obj (p : Proto) (es : JSEntries) (hp : p ≠ Proto.array) :
    isKeyFrames (.obj p es) = true := by
  simp [isKeyFrames, hp, isKeyFramesLoop_true]

theorem toNum_interpolate : toNum ("interpolate") = none := by decide

theorem toNum_interpolationKeys : toNum ("interpolationKeys") = none := by decide

theorem bind_ok {α β : Type} (a : α) (f : α → Except JSErr β) :
    (Except.ok a >>= f) = f a := rfl

theorem bind_error {α β : Type} (e : JSErr) (f : α → Except JSErr β) :
    ((Except.error e : Except JSErr α) >>= f) = .error e := rfl

theorem map_ok {α β : Type} (f : α → β) (a : α) :
    Except.map f (Except.ok a : Except JSErr α) = .ok (f a) := rfl

theorem map_error {α β : Type} (f : α → β) (e : JSErr) :
    Except.map f (Except.error e : Except JSErr α) = .error e := rfl

/-!
Characterisation of the bound-locating scan.  The lower and upper halves of
the state evolve independently, so we project the fold to two simpler folds
and characterise each: the scan tracks the greatest eligible key at or
below the requested time and the least key at or above it, in any key
order.
-/

def lowerStep (es : JSEntries) (t : ℚ) (p : ℚ × JSValue) (k : String) : ℚ × JSValue :=
  match toNum k with
  | none => p
  | some kt => if p.1 ≤ kt ∧ kt ≤ t then (kt, getOwn es k) else p

def upperStep (es : JSEntries) (t : ℚ) (p : Option ℚ × JSValue) (k : String) :
    Option ℚ × JSValue :=
  match toNum k with
  | none => p
  | some kt => if t ≤ kt ∧ leUpper kt p.1 then (some kt, getOwn es k) else p

theorem scanStep_decompose (es : JSEntries) (t : ℚ) (st : ScanSt) (k : String) :
    scanStep es t st k =
      { lowerTime := (lowerStep es t (st.lowerTime, st.lowerValue) k).1,
        lowerValue := (lowerStep es t (st.lowerTime, st.lowerValue) k).2,
        upperTime := (upperStep es t (st.upperTime, st.upperValue) k).1,
        upperValue := (upperStep es t (st.upperTime, st.upperValue) k).2 } := by
  cases h : toNum k with
  | none => simp [scanStep, lowerStep, upperStep, h]
  | some kt =>
    by_cases hl : st.lowerTime ≤ kt ∧ kt ≤ t <;>
      by_cases hu : t ≤ kt ∧ leUpper kt st.upperTime = true <;>
        simp [scanStep, lowerStep, upperStep, h, hl, hu]

theorem scan_decompose (es : JSEntries) (t : ℚ) :
    ∀ (ks : List String) (st : ScanSt),
      ks.foldl (scanStep es t) st =
        { lowerTime := (ks.foldl (lowerStep es t) (st.lowerTime, st.lowerValue)).1,
          lowerValue := (ks.foldl (lowerStep es t) (st.lowerTime, st.lowerValue)).2,
          upperTime := (ks.foldl (upperStep es t) (st.upperTime, st.upperValue)).1,
          upperValue := (ks.foldl (upperStep es t) (st.upperTime, st.upperValue)).2 } := by
  intro ks
  induction ks with
  | nil => intro st; rfl
  | cons k ks ih =>
    intro st
    have h1 := scanStep_decompose es t st k
    simp only [List.foldl_cons]
    rw [h1, ih]

/-- The lower fold finds the greatest key value in [initial lower time,
time], together with the stored value under a key achieving it; if no key
qualifies the initial pair survives. -/
theorem lowerFold_char (es : JSEntries) (t : ℚ) :
    ∀ (ks : List String) (lt : ℚ) (lv : JSValue),
      (ks.foldl (lowerStep es t) (lt, lv) = (lt, lv) ∧
        ∀ k ∈ ks, ∀ kt, toNum k = some kt → ¬ (lt ≤ kt ∧ kt ≤ t)) ∨
      (∃ k kt, k ∈ ks ∧ toNum k = some kt ∧ lt ≤ kt ∧ kt ≤ t ∧
        ks.foldl (lowerStep es t) (lt, lv) = (kt, getOwn es k) ∧
        ∀ k2 ∈ ks, ∀ kt2, toNum k2 = some kt2 → kt2 ≤ t → kt2 ≤ kt) := by
  intro ks
  induction ks with
  | nil => intro lt lv; exact Or.inl ⟨rfl, by simp⟩
  | cons k0 ks ih =>
    intro lt lv
    simp only [List.foldl_cons]
    cases h0 : toNum k0 with
    | none =>
      have hstep : lowerStep es t (lt, lv) k0 = (lt, lv) := by simp [lowerStep, h0]
      rw [hstep]
      rcases ih lt lv with ⟨heq, hnone⟩ | ⟨k, kt, hk, hkt, h1, h2, heq, hmax⟩
      · refine Or.inl ⟨heq, ?_⟩
        intro k2 hk2 kt2 hkt2
        rcases List.mem_cons.mp hk2 with h | h
        · subst h; rw [h0] at hkt2; exact absurd hkt2 (by simp)
        · exact hnone k2 h kt2 hkt2
      · refine Or.inr ⟨k, kt, List.mem_cons_of_mem _ hk, hkt, h1, h2, heq, ?_⟩
        intro k2 hk2 kt2 hkt2 hle
        rcases List.mem_cons.mp hk2 with h | h
        · subst h; rw [h0] at hkt2; exact absurd hkt2 (by simp)
        · exact hmax k2 h kt2 hkt2 hle
    | some kt0 =>
      by_cases hc : lt ≤ kt0 ∧ kt0 ≤ t
      · have hstep : lowerStep es t (lt, lv) k0 = (kt0, getOwn es k0) := by
          simp [lowerStep, h0, hc]
        rw [hstep]
        rcases ih kt0 (getOwn es k0) with ⟨heq, hnone⟩ | ⟨k, kt, hk, hkt, h1, h2, heq, hmax⟩
        · refine Or.inr ⟨k0, kt0, List.mem_cons_self _ _, h0, hc.1, hc.2, heq, ?_⟩
          intro k2 hk2 kt2 hkt2 hle
          rcases List.mem_cons.mp hk2 with h | h
          · subst h; rw [h0] at hkt2; cases hkt2; exact le_refl _
          · by_contra hgt
            push_neg at hgt
            exact hnone k2 h kt2 hkt2 ⟨le_of_lt hgt, hle⟩
        · refine Or.inr ⟨k, kt, List.mem_cons_of_mem _ hk, hkt, le_trans hc.1 h1, h2, heq, ?_⟩
          intro k2 hk2 kt2 hkt2 hle
          rcases List.mem_cons.mp hk2 with h | h
          · subst h; rw [h0] at hkt2; cases hkt2; exact h1
          · exact hmax k2 h kt2 hkt2 hle
      · have hstep : lowerStep es t (lt, lv) k0 = (lt, lv) := by
          simp only [lowerStep, h0]
          rw [if_neg hc]
        rw [hstep]
        rcases ih lt lv with ⟨heq, hnone⟩ | ⟨k, kt, hk, hkt, h1, h2, heq, hmax⟩
        · refine Or.inl ⟨heq, ?_⟩
          intro k2 hk2 kt2 hkt2
          rcases List.mem_cons.mp hk2 with h | h
          · subst h; rw [h0] at hkt2; cases hkt2; exact hc
          · exact hnone k2 h kt2 hkt2
        · refine Or.inr ⟨k, kt, List.mem_cons_of_mem _ hk, hkt, h1, h2, heq, ?_⟩
          intro k2 hk2 kt2 hkt2 hle
          rcases List.mem_cons.mp hk2 with h | h
          · subst h; rw [h0] at hkt2; cases hkt2
            by_contra hgt
            push_neg at hgt
            exact hc ⟨le_trans h1 (le_of_lt hgt), hle⟩
          · exact hmax k2 h kt2 hkt2 hle

/-- The upper fold finds the least key value at or above time that also
clears the initial upper bound; if no key qualifies the initial pair
survives. -/
theorem upperFold_char (es : JSEntries) (t : ℚ) :
    ∀ (ks : List String) (ut : Option ℚ) (uv : JSValue),
      (ks.foldl (upperStep es t) (ut, uv) = (ut, uv) ∧
        ∀ k ∈ ks, ∀ kt, toNum k = some kt → ¬ (t ≤ kt ∧ leUpper kt ut = true)) ∨
      (∃ k kt, k ∈ ks ∧ toNum k = some kt ∧ t ≤ kt ∧ leUpper kt ut = true ∧
        ks.foldl (upperStep es t) (ut, uv) = (some kt, getOwn es k) ∧
        ∀ k2 ∈ ks, ∀ kt2, toNum k2 = some kt2 → t ≤ kt2 → kt ≤ kt2) := by
  intro ks
  induction ks with
  | nil => intro ut uv; exact Or.inl ⟨rfl, by simp⟩
  | cons k0 ks ih =>
    intro ut uv
    simp only [List.foldl_cons]
    cases h0 : toNum k0 with
    | none =>
      have hstep : upperStep es t (ut, uv) k0 = (ut, uv) := by simp [upperStep, h0]
      rw [hstep]
      rcases ih ut uv with ⟨heq, hnone⟩ | ⟨k, kt, hk, hkt, h1, h2, heq, hmin⟩
      · refine Or.inl ⟨heq, ?_⟩
        intro k2 hk2 kt2 hkt2
        rcases List.mem_cons.mp hk2 with h | h
        · subst h; rw [h0] at hkt2; exact absurd hkt2 (by simp)
        · exact hnone k2 h kt2 hkt2
      · refine Or.inr ⟨k, kt, List.mem_cons_of_mem _ hk, hkt, h1, h2, heq, ?_⟩
        intro k2 hk2 kt2 hkt2 hle
        rcases List.mem_cons.mp hk2 with h | h
        · subst h; rw [h0] at hkt2; exact absurd hkt2 (by simp)
        · exact hmin k2 h kt2 hkt2 hle
    | some kt0 =>
      by_cases hc : t ≤ kt0 ∧ leUpper kt0 ut = true
      · have hstep : upperStep es t (ut, uv) k0 = (some kt0, getOwn es k0) := by
          simp only [upperStep, h0]
          rw [if_pos hc]
        rw [hstep]
        rcases ih (some kt0) (getOwn es k0) with ⟨heq, hnone⟩ | ⟨k, kt, hk, hkt, h1, h2, heq, hmin⟩
        · refine Or.inr ⟨k0, kt0, List.mem_cons_self _ _, h0, hc.1, hc.2, heq, ?_⟩
          intro k2 hk2 kt2 hkt2 hle
          rcases List.mem_cons.mp hk2 with h | h
          · subst h; rw [h0] at hkt2; cases hkt2; exact le_refl _
          · by_contra hgt
            push_neg at hgt
            exact hnone k2 h kt2 hkt2 ⟨hle, by simp [leUpper, le_of_lt hgt]⟩
        · have h2' : leUpper kt ut = true := by
            cases ut with
            | none => simp [leUpper]
            | some u =>
              simp only [leUpper, decide_eq_true_eq] at h2 hc ⊢
              exact le_trans h2 hc.2
          refine Or.inr ⟨k, kt, List.mem_cons_of_mem _ hk, hkt, h1, h2', heq, ?_⟩
          intro k2 hk2 kt2 hkt2 hle
          rcases List.mem_cons.mp hk2 with h | h
          · subst h; rw [h0] at hkt2; cases hkt2
            simpa [leUpper] using h2
          · exact hmin k2 h kt2 hkt2 hle
      · have hstep : upperStep es t (ut, uv) k0 = (ut, uv) := by
          simp only [upperStep, h0]
          rw [if_neg hc]
        rw [hstep]
        rcases ih ut uv with ⟨heq, hnone⟩ | ⟨k, kt, hk, hkt, h1, h2, heq, hmin⟩
        · refine Or.inl ⟨heq, ?_⟩
          intro k2 hk2 kt2 hkt2
          rcases List.mem_cons.mp hk2 with h | h
          · subst h; rw [h0] at hkt2; cases hkt2; exact hc
          · exact hnone k2 h kt2 hkt2
        · refine Or.inr ⟨k, kt, List.mem_cons_of_mem _ hk, hkt, h1, h2, heq, ?_⟩
          intro k2 hk2 kt2 hkt2 hle
          rcases List.mem_cons.mp hk2 with h | h
          · subst h; rw [h0] at hkt2; cases hkt2
            by_contra hgt
            push_neg at hgt
            apply hc
            refine ⟨hle, ?_⟩
            cases ut with
            | none => simp [leUpper]
            | some u =>
              simp only [leUpper, decide_eq_true_eq] at h2 ⊢
              exact le_trans (le_of_lt hgt) h2
          · exact hmin k2 h kt2 hkt2 hle

/-- Instantiation of the lower characterisation at the scan's initial
state: either no key lies in [0, time] and the null initialiser survives,
or the scan holds the greatest key value that is ≤ time (and ≥ 0), with the
value stored under a key achieving it. -/
theorem valScan_lower_char (es : JSEntries) (t : ℚ) :
    ((valScan es t).lowerTime = 0 ∧ (valScan es t).lowerValue = .null ∧
      ∀ k ∈ jsKeys es, ∀ kt, toNum k = some kt → ¬ (0 ≤ kt ∧ kt ≤ t)) ∨
    (∃ k kt, k ∈ jsKeys es ∧ toNum k = some kt ∧ 0 ≤ kt ∧ kt ≤ t ∧
      (valScan es t).lowerTime = kt ∧ (valScan es t).lowerValue = getOwn es k ∧
      ∀ k2 ∈ jsKeys es, ∀ kt2, toNum k2 = some kt2 → kt2 ≤ t → kt2 ≤ kt) := by
  have hd := scan_decompose es t (jsKeys es) scanInit
  have hlt : (valScan es t).lowerTime =
      ((jsKeys es).foldl (lowerStep es t) (0, JSValue.null)).1 := by
    rw [valScan, hd]
    simp [scanInit]
  have hlv : (valScan es t).lowerValue =
      ((jsKeys es).foldl (lowerStep es t) (0, JSValue.null)).2 := by
    rw [valScan, hd]
    simp [scanInit]
  rcases lowerFold_char es t (jsKeys es) 0 .null with ⟨heq, hnone⟩ |
    ⟨k, kt, hk, hkt, h1, h2, heq, hmax⟩
  · exact Or.inl ⟨by rw [hlt, heq], by rw [hlv, heq], hnone⟩
  · exact Or.inr ⟨k, kt, hk, hkt, h1, h2, by rw [hlt, heq], by rw [hlv, heq], hmax⟩

/-- Instantiation of the upper characterisation at the scan's initial
state: either no key is ≥ time and the Infinity/null initialisers survive,
or the scan holds the least key value that is ≥ time, with the value
stored under a key achieving it. -/
theorem valScan_upper_char (es : JSEntries) (t : ℚ) :
    ((valScan es t).upperTime = none ∧ (valScan es t).upperValue = .null ∧
      ∀ k ∈ jsKeys es, ∀ kt, toNum k = some kt → ¬ t ≤ kt) ∨
    (∃ k kt, k ∈ jsKeys es ∧ toNum k = some kt ∧ t ≤ kt ∧
      (valScan es t).upperTime = some kt ∧ (valScan es t).upperValue = getOwn es k ∧
      ∀ k2 ∈ jsKeys es, ∀ kt2, toNum k2 = some kt2 → t ≤ kt2 → kt ≤ kt2) := by
  have hd := scan_decompose es t (jsKeys es) scanInit
  have hut : (valScan es t).upperTime =
      ((jsKeys es).foldl (upperStep es t) (none, JSValue.null)).1 := by
    rw [valScan, hd]
    simp [scanInit]
  have huv : (valScan es t).upperValue =
      ((jsKeys es).foldl (upperStep es t) (none, JSValue.null)).2 := by
    rw [valScan, hd]
    simp [scanInit]
  rcases upperFold_char es t (jsKeys es) none .null with ⟨heq, hnone⟩ |
    ⟨k, kt, hk, hkt, h1, h2, heq, hmin⟩
  · refine Or.inl ⟨by rw [hut, heq], by rw [huv, heq], ?_⟩
    intro k2 hk2 kt2 hkt2 hle
    exact hnone k2 hk2 kt2 hkt2 ⟨hle, by simp [leUpper]⟩
  · exact Or.inr ⟨k, kt, hk, hkt, h1, by rw [hut, heq], by rw [huv, heq], hmin⟩

theorem sizeOf_jsvalue_pos (v : JSValue) : 1 ≤ sizeOf v := by
  cases v <;> simp <;> omega

/-- Helper: a mapped Except that is an error comes from an error. -/
theorem map_eq_error {α β : Type} (f : α → β) (x : Except JSErr α) (e : JSErr)
    (h : Except.map f x = .error e) : x = .error e := by
  cases x with
  | error e1 => cases h; rfl
  | ok a => rw [map_ok] at h; cases h

/-- The interpolators only raise type, prototype or TypeError failures;
in particular the bound errors of the resolver cannot come out of the
interpolation call. -/
theorem interpErrorShape (n : ℕ) :
    (∀ (x1 x2 : JSValue) (t : ℚ) (ks : JSValue) (e : JSErr), sizeOf x1 ≤ n →
      linearInterp x1 x2 t ks = .error e →
      e = .typeMismatch ∨ e = .protoMismatch ∨ ∃ m, e = .typeError m) ∧
    (∀ (es1 es2 : JSEntries) (t : ℚ) (kl : List String) (e : JSErr), sizeOf es1 ≤ n →
      linearLoop es1 es2 t kl = .error e →
      e = .typeMismatch ∨ e = .protoMismatch ∨ ∃ m, e = .typeError m) := by
  induction n with
  | zero =>
    constructor
    · intro x1 _ _ _ _ hn
      exact absurd hn (by have := sizeOf_jsvalue_pos x1; omega)
    · intro es1 _ _ _ _ hn
      cases es1 with
      | nil => simp at hn
      | cons e es => simp at hn
  | succ n ih =>
    have hInterp : ∀ (x1 x2 : JSValue) (t : ℚ) (ks : JSValue) (e : JSErr),
        sizeOf x1 ≤ n + 1 → linearInterp x1 x2 t ks = .error e →
        e = .typeMismatch ∨ e = .protoMismatch ∨ ∃ m, e = .typeError m := by
      intro x1 x2 t ks e hn h
      rw [linearInterp.eq_def] at h
      split at h
      · exact Or.inl (by cases h; rfl)
      · split at h
        · cases h
        · split at h
          · split at h
            · exact Or.inr (Or.inl (by cases h; rfl))
            · simp only [arrTruthy, if_true] at h
              have hX := map_eq_error _ _ _ h
              refine ih.2 _ _ _ _ _ ?_ hX
              simp at hn
              omega
          all_goals (cases h <;> exact Or.inr (Or.inr ⟨_, rfl⟩))
    have hLoop : ∀ (es1 es2 : JSEntries) (t : ℚ) (kl : List String) (e : JSErr),
        sizeOf es1 ≤ n + 1 → linearLoop es1 es2 t kl = .error e →
        e = .typeMismatch ∨ e = .protoMismatch ∨ ∃ m, e = .typeError m := by
      intro es1 es2 t kl
      induction kl with
      | nil => intro e hn h; simp only [linearLoop] at h; exact absurd h (by simp)
      | cons k kl ihl =>
        intro e hn h
        simp only [linearLoop] at h
        by_cases hc : hasOwn es1 k = false ∨ hasOwn es2 k = false
        · rw [dif_pos hc] at h
          exact ihl e hn h
        · rw [dif_neg hc] at h
          cases hv : linearInterp (getOwn es1 k) (getOwn es2 k) t .undef with
          | error e1 =>
            rw [hv, bind_error] at h
            cases h
            push_neg at hc
            refine hInterp _ _ _ _ _ ?_ hv
            have := sizeOf_getOwn_lt es1 k (by simpa using hc.1)
            omega
          | ok v =>
            rw [hv, bind_ok] at h
            cases hr : linearLoop es1 es2 t kl with
            | error e1 =>
              rw [hr, bind_error] at h
              cases h
              exact ihl _ hn hr
            | ok rest => rw [hr, bind_ok] at h; cases h
    exact ⟨hInterp, hLoop⟩

theorem isNullV_eq_false_iff (v : JSValue) : isNullV v = false ↔ v ≠ JSValue.null := by
  cases v <;> simp [isNullV]

theorem isNullV_null : isNullV JSValue.null = true := rfl

/-- val on a non-array object always takes the keyframe branch, because the
broken NaN test makes isKeyFrames accept every such object. -/
theorem val_kf (p : Proto) (es : JSEntries) (time : Option ℚ) (hp : p ≠ Proto.array) :
    val (.obj p es) time = valKeyframes es time := by
  simp [val, isKeyFrames_obj p es hp]

/-- The resolver reports a missing lower bound exactly when the scan's
lowerValue is still null. -/
theorem valKeyframes_noLower_iff (es : JSEntries) (t : ℚ) :
    valKeyframes es (some t) = .error .noLowerBound ↔
      isNullV (valScan es t).lowerValue = true := by
  constructor
  · intro h
    by_contra hnull
    simp only [valKeyframes] at h
    split_ifs at h with h1 h2 h3 h4 h5 h6
    all_goals try (exact hnull h1)
    all_goals try (exact absurd h (by simp))
    rcases ((interpErrorShape (sizeOf (valScan es t).lowerValue)).1 _ _ _ _ _ le_rfl h) with
      h7 | h7 | ⟨m, h7⟩ <;> simp at h7
  · intro h
    simp [valKeyframes, h]

/-- C3, amended: for keyframe sets whose numeric keys are non-negative and
whose stored values are non-null, resolution fails with
MissingLowerBoundError exactly when no numeric key ≤ time exists (in any
key order and whatever the sign of the time); resolving before the first
keyframe fails that way, resolving after the last keyframe fails with
MissingUpperBoundError when the lower value is numeric or structured; and
the scan's bounds are the true greatest key ≤ time and true least key
≥ time.  (The original claim, without the two restrictions, is refuted by
c3_counterexample: the scan's lowerTime starts at 0, so negative keys are
never found as lower bounds, and a stored null value is indistinguishable
from a missing bound.) -/
theorem c3_bound_scan (p : Proto) (es : JSEntries) (t : ℚ)
    (hp : p ≠ Proto.array)
    (hKeys0 : ∀ k ∈ jsKeys es, 0 ≤ (toNum k).getD 0)
    (hVals : ∀ k ∈ jsKeys es, isNullV (getOwn es k) = false) :
    (val (.obj p es) (some t) = .error .noLowerBound ↔
      ¬ ∃ k ∈ jsKeys es, ∃ kt, toNum k = some kt ∧ kt ≤ t) ∧
    ((∀ k ∈ jsKeys es, ∀ kt, toNum k = some kt → t < kt) →
      val (.obj p es) (some t) = .error .noLowerBound) ∧
    ((∃ k ∈ jsKeys es, ∃ kt, toNum k = some kt) →
      (∀ k ∈ jsKeys es, ∀ kt, toNum k = some kt → kt < t) →
      (jsTypeof (valScan es t).lowerValue = .numberT ∨
        jsTypeof (valScan es t).lowerValue = .objectT) →
      val (.obj p es) (some t) = .error .noUpperBound) ∧
    (isNullV (valScan es t).lowerValue = false →
      IsGreatest {q : ℚ | ∃ k ∈ jsKeys es, toNum k = some q ∧ q ≤ t}
        (valScan es t).lowerTime) ∧
    (∀ u : ℚ, (valScan es t).upperTime = some u →
      IsLeast {q : ℚ | ∃ k ∈ jsKeys es, toNum k = some q ∧ t ≤ q} u) := by
  have hKeys : ∀ k ∈ jsKeys es, ∀ kt, toNum k = some kt → 0 ≤ kt := by
    intro k hk kt hkt
    have := hKeys0 k hk
    rwa [hkt, Option.getD_some] at this
  have hlow := valScan_lower_char es t
  have hup := valScan_upper_char es t
  have hA : val (.obj p es) (some t) = .error .noLowerBound ↔
      ¬ ∃ k ∈ jsKeys es, ∃ kt, toNum k = some kt ∧ kt ≤ t := by
    rw [val_kf p es (some t) hp, valKeyframes_noLower_iff]
    rcases hlow with ⟨hlt, hlv, hnone⟩ | ⟨k, kt, hk, hkt, h1, h2, hlt, hlv, hmax⟩
    · rw [hlv]
      simp only [isNullV_null, true_iff]
      rintro ⟨k, hk, kt, hkt, hle⟩
      exact hnone k hk kt hkt ⟨hKeys k hk kt hkt, hle⟩
    · rw [hlv, hVals k hk]
      simp only [Bool.false_eq_true, false_iff, not_not]
      exact ⟨k, hk, kt, hkt, h2⟩
  refine ⟨hA, ?_, ?_, ?_, ?_⟩
  · intro hall
    apply hA.mpr
    rintro ⟨k, hk, kt, hkt, hle⟩
    exact absurd hle (not_le.mpr (hall k hk kt hkt))
  · intro hsome hall hty
    rcases hlow with ⟨hlt, hlv, hnone⟩ | ⟨k, kt, hk, hkt, h1, h2, hlt, hlv, hmax⟩
    · exfalso
      obtain ⟨k, hk, kt, hkt⟩ := hsome
      exact hnone k hk kt hkt ⟨hKeys k hk kt hkt, le_of_lt (hall k hk kt hkt)⟩
    · rcases hup with ⟨hut, huv, hnoneU⟩ | ⟨k2, kt2, hk2, hkt2, h1U, hutU, huvU, hminU⟩
      · rw [val_kf p es (some t) hp]
        simp only [valKeyframes]
        rw [if_neg (by simp [hlv, hVals k hk]), if_neg (not_not_intro hty),
          if_pos (by rw [huv]; exact isNullV_null)]
      · exact absurd h1U (not_le.mpr (hall k2 hk2 kt2 hkt2))
  · intro hnn
    rcases hlow with ⟨hlt, hlv, hnone⟩ | ⟨k, kt, hk, hkt, h1, h2, hlt, hlv, hmax⟩
    · rw [hlv, isNullV_null] at hnn
      cases hnn
    · constructor
      · rw [hlt]
        exact ⟨k, hk, hkt, h2⟩
      · rintro q ⟨k2, hk2, hkt2, hle2⟩
        rw [hlt]
        exact hmax k2 hk2 q hkt2 hle2
  · intro u hu
    rcases hup with ⟨hut, huv, hnoneU⟩ | ⟨k2, kt2, hk2, hkt2, h1U, hutU, huvU, hminU⟩
    · rw [hut] at hu
      cases hu
    · rw [hutU] at hu
      injection hu with hu
      subst hu
      constructor
      · exact ⟨k2, hk2, hkt2, h1U⟩
      · rintro q ⟨k3, hk3, hkt3, hle3⟩
        exact hminU k3 hk3 q hkt3 hle3

/-- C3 counterexample to the original claim: with the negative key -5 the
set {-5: 10} resolved at time -3 raises MissingLowerBoundError although the
numeric key -5 ≤ -3 exists (the scan's lowerTime initialiser 0 hides every
negative key); and with a stored null value the set {0: null} resolved at
time 5 raises MissingLowerBoundError although the numeric key 0 ≤ 5 exists
(lowerValue === null conflates a stored null with a missing bound). -/
theorem c3_counterexample :
    (val (.obj .plain [("-5", true, .num 10)]) (some (-3)) = .error .noLowerBound ∧
      toNum ("-5") = some (-5) ∧ ((-5 : ℚ) ≤ -3) ∧ "-5" ∈ jsKeys [("-5", true, JSValue.num 10)]) ∧
    (val (.obj .plain [("0", true, .null)]) (some 5) = .error .noLowerBound ∧
      toNum ("0") = some 0 ∧ ((0 : ℚ) ≤ 5) ∧ "0" ∈ jsKeys [("0", true, JSValue.null)]) := by
  exact ⟨⟨rfl, by decide, by norm_num, by decide⟩, ⟨rfl, by decide, by norm_num, by decide⟩⟩

/-- C9: during the scan a key whose numeric conversion is NaN leaves the
state untouched (both comparisons fail), the two reserved control keys
convert to NaN, and any bound the scan produces originates from a key with
a genuine numeric conversion, carrying that key's stored value. -/
theorem c9_nan_keys_never_bound (es : JSEntries) (t : ℚ) :
    (∀ (st : ScanSt) (k : String), toNum k = none → scanStep es t st k = st) ∧
    toNum ("interpolate") = none ∧ toNum ("interpolationKeys") = none ∧
    ((valScan es t).lowerTime = 0 ∧ (valScan es t).lowerValue = .null ∨
      ∃ k kt, k ∈ jsKeys es ∧ toNum k = some kt ∧
        (valScan es t).lowerTime = kt ∧ (valScan es t).lowerValue = getOwn es k) ∧
    ((valScan es t).upperTime = none ∧ (valScan es t).upperValue = .null ∨
      ∃ k kt, k ∈ jsKeys es ∧ toNum k = some kt ∧
        (valScan es t).upperTime = some kt ∧ (valScan es t).upperValue = getOwn es k) := by
  refine ⟨?_, toNum_interpolate, toNum_interpolationKeys, ?_, ?_⟩
  · intro st k h
    simp [scanStep, h]
  · rcases valScan_lower_char es t with ⟨hlt, hlv, _⟩ | ⟨k, kt, hk, hkt, _, _, hlt, hlv, _⟩
    · exact Or.inl ⟨hlt, hlv⟩
    · exact Or.inr ⟨k, kt, hk, hkt, hlt, hlv⟩
  · rcases valScan_upper_char es t with ⟨hut, huv, _⟩ | ⟨k, kt, hk, hkt, _, hut, huv, _⟩
    · exact Or.inl ⟨hut, huv⟩
    · exact Or.inr ⟨k, kt, hk, hkt, hut, huv⟩

/-- C9 witness at a concrete keyframe set carrying a reserved key: the
reserved key converts to NaN, the scan step ignores it, and the bounds of
the full scan come from the numeric key 2. -/
theorem c9_witness :
    toNum ("interpolate") = none ∧
    (∀ st : ScanSt,
      scanStep [("interpolate", true, JSValue.num 7), ("2", true, JSValue.num 1)] 5 st
        ("interpolate") = st) ∧
    ((valScan [("interpolate", true, JSValue.num 7), ("2", true, JSValue.num 1)] 5).lowerTime = 0 ∧
        (valScan [("interpolate", true, JSValue.num 7), ("2", true, JSValue.num 1)] 5).lowerValue = .null ∨
      ∃ k kt, k ∈ jsKeys [("interpolate", true, JSValue.num 7), ("2", true, JSValue.num 1)] ∧
        toNum k = some kt ∧
        (valScan [("interpolate", true, JSValue.num 7), ("2", true, JSValue.num 1)] 5).lowerTime = kt ∧
        (valScan [("interpolate", true, JSValue.num 7), ("2", true, JSValue.num 1)] 5).lowerValue =
          getOwn [("interpolate", true, JSValue.num 7), ("2", true, JSValue.num 1)] k) := by
  have h := c9_nan_keys_never_bound
    [("interpolate", true, JSValue.num 7), ("2", true, JSValue.num 1)] 5
  exact ⟨h.2.1, fun st => h.1 st ("interpolate") h.2.1, h.2.2.2.1⟩

/-- C1: the isKeyFrames check of the source contradicts its own
documentation.  The comparison +key === NaN is false for every key, so the
object {foo: 1}, whose key is neither numeric nor reserved, is accepted
(the documentation demands false), and resolution then treats it as a
keyframe set: val({foo: 1}, 5) scans it and throws
MissingLowerBoundError instead of returning the object as a constant.
Arrays and primitives are still rejected. -/
theorem c1_isKeyFrames_accepts_nonnumeric_key :
    toNum ("foo") = none ∧
    isKeyFrames (.obj .plain [("foo", true, .num 1)]) = true ∧
    val (.obj .plain [("foo", true, .num 1)]) (some 5) = .error .noLowerBound ∧
    isKeyFrames (.obj .array [("0", true, .num 1)]) = false ∧
    isKeyFrames (.num 3) = false ∧ isKeyFrames .null = false ∧
    isKeyFrames (.str "a") = false := by
  exact ⟨by decide, rfl, rfl, rfl, rfl, rfl, rfl⟩

theorem getOwn_of_not_hasOwn (es : JSEntries) (k : String)
    (h : hasOwn es k = false) : getOwn es k = .undef := by
  induction es with
  | nil => rfl
  | cons e tl ih =>
    obtain ⟨k1, b1, v1⟩ := e
    by_cases hk : k1 = k
    · simp [hasOwn, hk] at h
    · simp [hasOwn, hk] at h
      simp [getOwn, hk, ih h]

theorem linearInterp_num (a b t : ℚ) (ks : JSValue) :
    linearInterp (.num a) (.num b) t ks = .ok (.num ((1 - t) * a + t * b)) := by
  rw [linearInterp.eq_def]
  norm_num [jsTypeof]

/-- C6, amended: for keyframe sets with non-negative, pairwise distinct
numeric keys and no interpolate override, resolving exactly at a key whose
stored value is non-null returns that value unchanged, and for an adjacent
pair of numeric-valued keyframes resolution at the endpoints returns the
endpoint values while resolution at the midpoint returns the average under
the default linear interpolator.  (The original claim, over every keyframe
set, is refuted by c6_counterexample: a negative key or a stored null makes
the exact hit fail with MissingLowerBoundError.) -/
theorem c6_exact_hit_and_midpoint (p : Proto) (es : JSEntries)
    (hp : p ≠ Proto.array)
    (hKeys0 : ∀ k ∈ jsKeys es, 0 ≤ (toNum k).getD 0)
    (hInj : ∀ k1 ∈ jsKeys es, ∀ k2 ∈ jsKeys es,
      toNum k1 = toNum k2 → toNum k1 ≠ none → k1 = k2)
    (hNoInterp : hasOwn es ("interpolate") = false) :
    (∀ tk qi vi, tk ∈ jsKeys es → toNum tk = some qi → getOwn es tk = vi →
      isNullV vi = false → val (.obj p es) (some qi) = .ok vi) ∧
    (∀ t0 t1 q0 q1 a b, t0 ∈ jsKeys es → t1 ∈ jsKeys es →
      toNum t0 = some q0 → toNum t1 = some q1 →
      getOwn es t0 = JSValue.num a → getOwn es t1 = JSValue.num b →
      q0 < q1 →
      (∀ k ∈ jsKeys es, ∀ kt, toNum k = some kt → ¬ (q0 < kt ∧ kt < q1)) →
      val (.obj p es) (some q0) = .ok (JSValue.num a) ∧
      val (.obj p es) (some q1) = .ok (JSValue.num b) ∧
      val (.obj p es) (some ((q0 + q1) / 2)) = .ok (JSValue.num ((a + b) / 2))) := by
  have hKeys : ∀ k ∈ jsKeys es, ∀ kt, toNum k = some kt → 0 ≤ kt := by
    intro k hk kt hkt
    have := hKeys0 k hk
    rwa [hkt, Option.getD_some] at this
  have hexact : ∀ tk qi vi, tk ∈ jsKeys es → toNum tk = some qi → getOwn es tk = vi →
      isNullV vi = false → val (.obj p es) (some qi) = .ok vi := by
    intro tk qi vi htk hqi hvi hVi
    have hlv' : (valScan es qi).lowerValue = vi ∧ (valScan es qi).lowerTime = qi := by
      rcases valScan_lower_char es qi with ⟨hlt, hlv, hnone⟩ |
        ⟨k, kt, hk, hkt, h1, h2, hlt, hlv, hmax⟩
      · exact absurd (hnone tk htk qi hqi) (by push_neg; exact ⟨hKeys tk htk qi hqi, le_rfl⟩)
      · have hktqi : kt = qi :=
          le_antisymm h2 (hmax tk htk qi hqi le_rfl)
        have hkeq : k = tk := by
          apply hInj k hk tk htk
          · rw [hkt, hqi, hktqi]
          · rw [hkt]; simp
        subst hkeq
        rw [hktqi] at hlt
        rw [hvi] at hlv
        exact ⟨hlv, hlt⟩
    have huv' : (valScan es qi).upperValue = vi ∧ (valScan es qi).upperTime = some qi := by
      rcases valScan_upper_char es qi with ⟨hut, huv, hnoneU⟩ |
        ⟨k2, kt2, hk2, hkt2, h1U, hutU, huvU, hminU⟩
      · exact absurd (hnoneU tk htk qi hqi) (by simp)
      · have hktqi : kt2 = qi :=
          le_antisymm (hminU tk htk qi hqi le_rfl) h1U
        have hkeq : k2 = tk := by
          apply hInj k2 hk2 tk htk
          · rw [hkt2, hqi, hktqi]
          · rw [hkt2]; simp
        subst hkeq
        rw [hktqi] at hutU
        rw [hvi] at huvU
        exact ⟨huvU, hutU⟩
    rw [val_kf p es _ hp]
    simp only [valKeyframes]
    rw [hlv'.1, hlv'.2, huv'.1, huv'.2]
    rw [if_neg (by simp [hVi])]
    by_cases hty : jsTypeof vi = JSType.numberT ∨ jsTypeof vi = JSType.objectT
    · rw [if_neg (not_not_intro hty), if_neg (by simp [hVi]), if_neg (by simp), if_pos rfl]
    · rw [if_pos hty]
  refine ⟨hexact, ?_⟩
  intro t0 t1 q0 q1 a b ht0 ht1 hq0 hq1 hv0 hv1 h01 hAdj
  have hq0nn : 0 ≤ q0 := hKeys t0 ht0 q0 hq0
  refine ⟨hexact t0 q0 (JSValue.num a) ht0 hq0 hv0 rfl,
    hexact t1 q1 (JSValue.num b) ht1 hq1 hv1 rfl, ?_⟩
  set m : ℚ := (q0 + q1) / 2 with hm
  have hq0m : q0 < m := by rw [hm]; linarith
  have hmq1 : m < q1 := by rw [hm]; linarith
  have hlv' : (valScan es m).lowerValue = JSValue.num a ∧ (valScan es m).lowerTime = q0 := by
    rcases valScan_lower_char es m with ⟨hlt, hlv, hnone⟩ |
      ⟨k, kt, hk, hkt, h1, h2, hlt, hlv, hmax⟩
    · exact absurd (hnone t0 ht0 q0 hq0)
        (by push_neg; exact ⟨hq0nn, le_of_lt hq0m⟩)
    · have hktq0 : kt = q0 := by
        have hge : q0 ≤ kt := hmax t0 ht0 q0 hq0 (le_of_lt hq0m)
        have hlt1 : kt < q1 := lt_of_le_of_lt h2 hmq1
        have := hAdj k hk kt hkt
        by_contra hne
        exact this ⟨lt_of_le_of_ne hge (fun h => hne h.symm), hlt1⟩
      have hkeq : k = t0 := by
        apply hInj k hk t0 ht0
        · rw [hkt, hq0, hktq0]
        · rw [hkt]; simp
      subst hkeq
      rw [hktq0] at hlt
      rw [hv0] at hlv
      exact ⟨hlv, hlt⟩
  have huv' : (valScan es m).upperValue = JSValue.num b ∧ (valScan es m).upperTime = some q1 := by
    rcases valScan_upper_char es m with ⟨hut, huv, hnoneU⟩ |
      ⟨k2, kt2, hk2, hkt2, h1U, hutU, huvU, hminU⟩
    · exact absurd (hnoneU t1 ht1 q1 hq1) (by simp [le_of_lt hmq1])
    · have hktq1 : kt2 = q1 := by
        have hle : kt2 ≤ q1 := hminU t1 ht1 q1 hq1 (le_of_lt hmq1)
        have hgt0 : q0 < kt2 := lt_of_lt_of_le hq0m h1U
        have := hAdj k2 hk2 kt2 hkt2
        by_contra hne
        exact this ⟨hgt0, lt_of_le_of_ne hle hne⟩
      have hkeq : k2 = t1 := by
        apply hInj k2 hk2 t1 ht1
        · rw [hkt2, hq1, hktq1]
        · rw [hkt2]; simp
      subst hkeq
      rw [hktq1] at hutU
      rw [hv1] at huvU
      exact ⟨huvU, hutU⟩
  rw [val_kf p es _ hp]
  simp only [valKeyframes]
  rw [hlv'.1, hlv'.2, huv'.1, huv'.2]
  rw [if_neg (by simp [isNullV]),
    if_neg (not_not_intro (Or.inl (show jsTypeof (JSValue.num a) = JSType.numberT from rfl))),
    if_neg (by simp [isNullV]),
    if_neg (not_not_intro (show jsTypeof (JSValue.num a) = jsTypeof (JSValue.num b) from rfl)),
    if_neg (by
      simp only [Option.some.injEq]
      exact ne_of_gt h01)]
  rw [getOwn_of_not_hasOwn es ("interpolate") hNoInterp]
  rw [if_neg (by simp [jsTruthy])]
  have hne : q1 - q0 ≠ 0 := sub_ne_zero.mpr (ne_of_gt h01)
  have hpc : (m - q0) / ((some q1).getD 0 - q0) = 1 / 2 := by
    rw [hm]
    simp only [Option.getD_some]
    field_simp
    ring
  rw [hpc, linearInterp_num]
  have hval : (1 - 1 / 2 : ℚ) * a + 1 / 2 * b = (a + b) / 2 := by ring
  rw [hval]

/-- C6 counterexample to the original claim: resolving the one-keyframe set
{-5: 7} exactly at its own key -5 does not return 7 but raises
MissingLowerBoundError (the scan's lowerTime starts at 0), and resolving
{1: null} exactly at 1 likewise fails because the stored null is taken for
a missing bound. -/
theorem c6_counterexample :
    (val (.obj .plain [("-5", true, .num 7)]) (some (-5)) = .error .noLowerBound ∧
      toNum ("-5") = some (-5) ∧ "-5" ∈ jsKeys [("-5", true, JSValue.num 7)]) ∧
    (val (.obj .plain [("1", true, .null)]) (some 1) = .error .noLowerBound ∧
      toNum ("1") = some 1 ∧ getOwn [("1", true, JSValue.null)] ("1") = .null) := by
  exact ⟨⟨rfl, by decide, by decide⟩, ⟨rfl, by decide, rfl⟩⟩

/-- C6 witness: the two-keyframe set {0: 2, 10: 4} satisfies the amended
hypotheses, resolves exactly at its keys to the stored values, and resolves
at the midpoint to the average. -/
theorem c6_witness :
    ((Proto.plain : Proto) ≠ Proto.array) ∧
    (∀ k ∈ jsKeys [("0", true, JSValue.num 2), ("10", true, JSValue.num 4)],
      0 ≤ (toNum k).getD 0) ∧
    (∀ k1 ∈ jsKeys [("0", true, JSValue.num 2), ("10", true, JSValue.num 4)],
      ∀ k2 ∈ jsKeys [("0", true, JSValue.num 2), ("10", true, JSValue.num 4)],
      toNum k1 = toNum k2 → toNum k1 ≠ none → k1 = k2) ∧
    hasOwn [("0", true, JSValue.num 2), ("10", true, JSValue.num 4)] ("interpolate") = false ∧
    val (.obj .plain [("0", true, JSValue.num 2), ("10", true, JSValue.num 4)]) (some 0) =
      .ok (.num 2) ∧
    val (.obj .plain [("0", true, JSValue.num 2), ("10", true, JSValue.num 4)]) (some 10) =
      .ok (.num 4) ∧
    val (.obj .plain [("0", true, JSValue.num 2), ("10", true, JSValue.num 4)])
      (some ((0 + 10) / 2)) = .ok (.num ((2 + 4) / 2)) := by
  have h := c6_exact_hit_and_midpoint Proto.plain
    [("0", true, JSValue.num 2), ("10", true, JSValue.num 4)]
    (by decide) (by decide) (by decide) (by decide)
  have hAdj : ∀ k ∈ jsKeys [("0", true, JSValue.num 2), ("10", true, JSValue.num 4)],
      ∀ kt : ℚ, toNum k = some kt → ¬ ((0 : ℚ) < kt ∧ kt < 10) := by
    intro k hk kt hkt
    rw [show jsKeys [("0", true, JSValue.num 2), ("10", true, JSValue.num 4)] = ["0", "10"]
      from by decide] at hk
    simp only [List.mem_cons, List.mem_singleton, List.not_mem_nil, or_false] at hk
    rcases hk with rfl | rfl
    · rw [show toNum ("0") = some 0 from by decide] at hkt
      cases hkt
      norm_num
    · rw [show toNum ("10") = some 10 from by decide] at hkt
      cases hkt
      norm_num
  have hpair := h.2 ("0") ("10") 0 10 2 4 (by decide) (by decide) (by decide) (by decide)
    rfl rfl (by norm_num) hAdj
  exact ⟨by decide, by decide, by decide, by decide, hpair.1, hpair.2.1, hpair.2.2⟩

/-- C3 witness: the two-keyframe set {0: 1, 10: 3} satisfies the amended
hypotheses and, at time 4, obeys every part of the bound-scan
characterisation. -/
theorem c3_witness :
    ((Proto.plain : Proto) ≠ Proto.array) ∧
    (∀ k ∈ jsKeys [("0", true, JSValue.num 1), ("10", true, JSValue.num 3)],
      0 ≤ (toNum k).getD 0) ∧
    (∀ k ∈ jsKeys [("0", true, JSValue.num 1), ("10", true, JSValue.num 3)],
      isNullV (getOwn [("0", true, JSValue.num 1), ("10", true, JSValue.num 3)] k) = false) ∧
    ((val (.obj .plain [("0", true, JSValue.num 1), ("10", true, JSValue.num 3)]) (some 4) =
        .error .noLowerBound ↔
      ¬ ∃ k ∈ jsKeys [("0", true, JSValue.num 1), ("10", true, JSValue.num 3)],
        ∃ kt, toNum k = some kt ∧ kt ≤ 4) ∧
    ((∀ k ∈ jsKeys [("0", true, JSValue.num 1), ("10", true, JSValue.num 3)],
        ∀ kt, toNum k = some kt → 4 < kt) →
      val (.obj .plain [("0", true, JSValue.num 1), ("10", true, JSValue.num 3)]) (some 4) =
        .error .noLowerBound) ∧
    ((∃ k ∈ jsKeys [("0", true, JSValue.num 1), ("10", true, JSValue.num 3)],
        ∃ kt, toNum k = some kt) →
      (∀ k ∈ jsKeys [("0", true, JSValue.num 1), ("10", true, JSValue.num 3)],
        ∀ kt, toNum k = some kt → kt < 4) →
      (jsTypeof (valScan [("0", true, JSValue.num 1), ("10", true, JSValue.num 3)] 4).lowerValue =
          .numberT ∨
        jsTypeof (valScan [("0", true, JSValue.num 1), ("10", true, JSValue.num 3)] 4).lowerValue =
          .objectT) →
      val (.obj .plain [("0", true, JSValue.num 1), ("10", true, JSValue.num 3)]) (some 4) =
        .error .noUpperBound) ∧
    (isNullV (valScan [("0", true, JSValue.num 1), ("10", true, JSValue.num 3)] 4).lowerValue =
        false →
      IsGreatest {q : ℚ | ∃ k ∈ jsKeys [("0", true, JSValue.num 1), ("10", true, JSValue.num 3)],
          toNum k = some q ∧ q ≤ 4}
        (valScan [("0", true, JSValue.num 1), ("10", true, JSValue.num 3)] 4).lowerTime) ∧
    (∀ u : ℚ,
      (valScan [("0", true, JSValue.num 1), ("10", true, JSValue.num 3)] 4).upperTime = some u →
      IsLeast {q : ℚ | ∃ k ∈ jsKeys [("0", true, JSValue.num 1), ("10", true, JSValue.num 3)],
          toNum k = some q ∧ 4 ≤ q} u)) :=
  ⟨by decide, by decide, by decide,
    c3_bound_scan Proto.plain [("0", true, JSValue.num 1), ("10", true, JSValue.num 3)] 4
      (by decide) (by decide) (by decide)⟩

theorem jsKeys_hasOwn (es : JSEntries) (k : String) (h : k ∈ jsKeys es) :
    hasOwn es k = true := by
  induction es with
  | nil => simp [jsKeys] at h
  | cons e tl ih =>
    obtain ⟨k1, b1, v1⟩ := e
    by_cases hk : k1 = k
    · simp [hasOwn, hk]
    · simp [hasOwn, hk]
      apply ih
      rcases List.mem_map.mp h with ⟨e2, he2, hke⟩
      rcases List.mem_filter.mp he2 with ⟨he2', hb2⟩
      rcases List.mem_cons.mp he2' with rfl | he2''
      · exact absurd (by rw [← hke]) hk
      · exact List.mem_map.mpr ⟨e2, List.mem_filter.mpr ⟨he2'', hb2⟩, hke⟩

/-- Characterisation of the key loop of linearInterp on success: the result
keeps, in order, exactly the iterated keys own on both operands, each bound
to the recursive interpolation of the two stored values, as an enumerable
entry. -/
theorem linearLoop_ok_char (es1 es2 : JSEntries) (t : ℚ) :
    ∀ (ks : List String) (res : JSEntries),
      linearLoop es1 es2 t ks = .ok res →
      res.map (fun e => e.1) = ks.filter (fun k => hasOwn es1 k && hasOwn es2 k) ∧
      ∀ e ∈ res, e.2.1 = true ∧
        linearInterp (getOwn es1 e.1) (getOwn es2 e.1) t .undef = .ok e.2.2 := by
  intro ks
  induction ks with
  | nil =>
    intro res h
    simp only [linearLoop] at h
    cases h
    exact ⟨by simp, by simp⟩
  | cons k ks ih =>
    intro res h
    simp only [linearLoop] at h
    by_cases hc : hasOwn es1 k = false ∨ hasOwn es2 k = false
    · rw [dif_pos hc] at h
      obtain ⟨h1, h2⟩ := ih res h
      have hpk : (hasOwn es1 k && hasOwn es2 k) = false := by
        rcases hc with h | h <;> simp [h]
      refine ⟨?_, h2⟩
      rw [List.filter_cons, hpk]
      simpa using h1
    · rw [dif_neg hc] at h
      push_neg at hc
      have hc1 : hasOwn es1 k = true := by simpa using hc.1
      have hc2 : hasOwn es2 k = true := by simpa using hc.2
      cases hv : linearInterp (getOwn es1 k) (getOwn es2 k) t .undef with
      | error e1 => rw [hv, bind_error] at h; cases h
      | ok v =>
        rw [hv, bind_ok] at h
        cases hr : linearLoop es1 es2 t ks with
        | error e1 => rw [hr, bind_error] at h; cases h
        | ok rest =>
          rw [hr, bind_ok] at h
          cases h
          obtain ⟨h1, h2⟩ := ih rest hr
          refine ⟨?_, ?_⟩
          · rw [List.filter_cons, hc1, hc2]
            simpa using h1
          · intro e he
            rcases List.mem_cons.mp he with rfl | he2
            · exact ⟨rfl, by rw [hv]⟩
            · exact h2 e he2

/-- C4, amended: linear interpolation of two structured operands of the
same prototype, when it succeeds, returns a new object of that prototype
whose keys are exactly the enumerable own keys of the first operand that
the second operand also owns, in iteration order, each interpolated
recursively.  (The original claim's symmetric reading, keys own on both
operands, is refuted by c4_counterexample: a non-enumerable own key of the
first operand is own on both sides yet absent from the result, because the
iterated key list is Object.keys of the first operand.) -/
theorem c4_structural_intersection (p : Proto) (es1 es2 : JSEntries) (t : ℚ)
    (ks : JSValue) (r : JSValue)
    (h : linearInterp (.obj p es1) (.obj p es2) t ks = .ok r) :
    ∃ res : JSEntries, r = .obj p res ∧
      res.map (fun e => e.1) = (jsKeys es1).filter (fun k => hasOwn es2 k) ∧
      ∀ e ∈ res, e.2.1 = true ∧
        linearInterp (getOwn es1 e.1) (getOwn es2 e.1) t .undef = .ok e.2.2 := by
  rw [linearInterp.eq_def] at h
  rw [if_neg (not_not_intro
    (show jsTypeof (JSValue.obj p es1) = jsTypeof (JSValue.obj p es2) from rfl))] at h
  rw [if_neg (by simp [jsTypeof])] at h
  simp only [ne_eq, not_true_eq_false, if_false, arrTruthy, if_true, if_pos] at h
  cases hl : linearLoop es1 es2 t (jsKeys es1) with
  | error e1 => rw [hl, map_error] at h; cases h
  | ok res =>
    rw [hl, map_ok] at h
    cases h
    obtain ⟨h1, h2⟩ := linearLoop_ok_char es1 es2 t (jsKeys es1) res hl
    refine ⟨res, rfl, ?_, h2⟩
    rw [h1]
    exact List.filter_congr (fun k hk => by rw [jsKeys_hasOwn es1 k hk, Bool.true_and])

/-- C4 counterexample to the original claim: the key x is an own key of
both operands (non-enumerable on the first), so the claim demands the
result {x: 2}, but linear interpolation returns the empty object: the
iterated keys are Object.keys of the first operand, which skips
non-enumerable own keys. -/
theorem c4_counterexample :
    hasOwn [("x", false, JSValue.num 1)] ("x") = true ∧
    hasOwn [("x", true, JSValue.num 3)] ("x") = true ∧
    linearInterp (.obj .plain [("x", false, JSValue.num 1)])
      (.obj .plain [("x", true, JSValue.num 3)]) (1/2) .undef =
      .ok (.obj .plain []) := by
  refine ⟨rfl, rfl, ?_⟩
  simp [linearInterp.eq_def, linearLoop.eq_def, jsKeys, arrTruthy, jsTypeof, map_ok]

/-- C4 witness: interpolating {x: 0, y: 0} with {x: 10} at one half
succeeds with {x: 5}, and the amended characterisation applies to it. -/
theorem c4_witness :
    linearInterp (.obj .plain [("x", true, JSValue.num 0), ("y", true, JSValue.num 0)])
      (.obj .plain [("x", true, JSValue.num 10)]) (1/2) .undef =
      .ok (.obj .plain [("x", true, JSValue.num 5)]) ∧
    (∃ res : JSEntries, (JSValue.obj .plain [("x", true, JSValue.num 5)]) = .obj .plain res ∧
      res.map (fun e => e.1) =
        (jsKeys [("x", true, JSValue.num 0), ("y", true, JSValue.num 0)]).filter
          (fun k => hasOwn [("x", true, JSValue.num 10)] k) ∧
      ∀ e ∈ res, e.2.1 = true ∧
        linearInterp (getOwn [("x", true, JSValue.num 0), ("y", true, JSValue.num 0)] e.1)
          (getOwn [("x", true, JSValue.num 10)] e.1) (1/2) .undef = .ok e.2.2) := by
  have hv : linearInterp
      (.obj .plain [("x", true, JSValue.num 0), ("y", true, JSValue.num 0)])
      (.obj .plain [("x", true, JSValue.num 10)]) (1/2) .undef =
      .ok (.obj .plain [("x", true, JSValue.num 5)]) := by
    simp [linearInterp.eq_def, linearLoop.eq_def, jsKeys, arrTruthy, jsTypeof, hasOwn,
      getOwn, bind_ok, map_ok]
    norm_num
  exact ⟨hv, c4_structural_intersection .plain _ _ (1/2) .undef _ hv⟩

/-- C5: the structuralKeys fallback is dead code.  Here the first operand
exposes no own keys to Object.keys (its only own key x is non-enumerable),
x is an own key of both operands, and the structuralKeys argument names x;
the claim therefore demands that x be iterated and interpolated, but both
interpolators return the empty object for every cosine weight: the key
list Object.keys(x1) || objectKeys never falls back to objectKeys because
a JavaScript array, even empty, is truthy. -/
theorem c5_structural_keys_ignored :
    jsKeys [("x", false, JSValue.num 0)] = [] ∧
    hasOwn [("x", false, JSValue.num 0)] ("x") = true ∧
    hasOwn [("x", true, JSValue.num 10)] ("x") = true ∧
    asKeyList (.obj .array [("0", true, .str "x")]) = ["x"] ∧
    arrTruthy (jsKeys [("x", false, JSValue.num 0)]) = true ∧
    linearInterp (.obj .plain [("x", false, JSValue.num 0)])
      (.obj .plain [("x", true, JSValue.num 10)]) (1/2)
      (.obj .array [("0", true, .str "x")]) = .ok (.obj .plain []) ∧
    (∀ cosFn : ℚ → ℚ,
      cosineInterp cosFn (.obj .plain [("x", false, JSValue.num 0)])
        (.obj .plain [("x", true, JSValue.num 10)]) (1/2)
        (.obj .array [("0", true, .str "x")]) = .ok (.obj .plain [])) := by
  refine ⟨rfl, rfl, rfl, rfl, rfl, ?_, ?_⟩
  · simp [linearInterp.eq_def, linearLoop.eq_def, jsKeys, arrTruthy, jsTypeof, map_ok]
  · intro cosFn
    simp [cosineInterp.eq_def, cosineLoop.eq_def, jsKeys, arrTruthy, jsTypeof, map_ok]

/-- C2: the breadth-first merge gives precedence to the class dequeued
last, not first.  For C (id 0) inheriting [A (id 1), B (id 2)] where A
declares k = 1 and B declares k = 2 and C declares nothing, the merged
value of k is B's 2, because the accumulator is spread first and the
current class's options last, so every later-dequeued (deeper or
later-listed) source overwrites the earlier ones — the opposite of the
source's own comment that children classes have higher priority than
parent classes. -/
theorem c2_later_source_overrides_earlier :
    getDefaultOptions
      [⟨0, [], [1, 2]⟩, ⟨1, [("k", 1)], []⟩, ⟨2, [("k", 2)], []⟩] 10 0 =
      some [("k", 2)] ∧
    lookupOpt [("k", 2)] ("k") = some 2 ∧
    spreadMerge [("k", 1)] [("k", 2)] = [("k", 2)] := by
  exact ⟨rfl, rfl, rfl⟩

/-- Weight of a queue element for the breadth-first termination measure:
exponential in the element's rank, with base one more than the largest
declared parent-list length. -/
def bfsWeight (d : ℕ) (rank : ℕ → ℕ) (i : ℕ) : ℕ := (d + 1) ^ rank i

def bfsMeasure (d : ℕ) (rank : ℕ → ℕ) (queue : List ℕ) : ℕ :=
  (queue.map (bfsWeight d rank)).sum

/-- Largest number of inherited sources declared by any class in the
graph. -/
def maxParents (g : ClassGraph) : ℕ :=
  g.foldr (fun c m => max c.inheritedDefaultOptions.length m) 0

theorem length_le_maxParents (g : ClassGraph) (c : VariantClass) (hc : c ∈ g) :
    c.inheritedDefaultOptions.length ≤ maxParents g := by
  induction g with
  | nil => simp at hc
  | cons c0 tl ih =>
    rcases List.mem_cons.mp hc with rfl | hc2
    · exact le_max_left _ _
    · exact le_trans (ih hc2) (le_max_right _ _)

theorem sum_weights_le (d : ℕ) (rank : ℕ → ℕ) (b : ℕ) :
    ∀ ps : List ℕ, (∀ p ∈ ps, bfsWeight d rank p ≤ b) →
      (ps.map (bfsWeight d rank)).sum ≤ ps.length * b := by
  intro ps
  induction ps with
  | nil => intro _; simp
  | cons p ps ih =>
    intro h
    simp only [List.map_cons, List.sum_cons, List.length_cons]
    have h1 := h p (List.mem_cons_self _ _)
    have h2 := ih (fun q hq => h q (List.mem_cons_of_mem _ hq))
    calc bfsWeight d rank p + (ps.map (bfsWeight d rank)).sum
        ≤ b + ps.length * b := Nat.add_le_add h1 h2
      _ = (ps.length + 1) * b := by ring

theorem sum_parents_lt (d : ℕ) (rank : ℕ → ℕ) (r : ℕ) (ps : List ℕ)
    (hlen : ps.length ≤ d) (hr : ∀ p ∈ ps, rank p < r) :
    (ps.map (bfsWeight d rank)).sum < (d + 1) ^ r := by
  cases ps with
  | nil =>
    simp only [List.map_nil, List.sum_nil]
    exact Nat.pos_pow_of_pos r (by omega)
  | cons p0 ps =>
    have hr1 : 1 ≤ r := by
      have := hr p0 (List.mem_cons_self _ _)
      omega
    have hb : ∀ q ∈ p0 :: ps, bfsWeight d rank q ≤ (d + 1) ^ (r - 1) := by
      intro q hq
      exact Nat.pow_le_pow_right (by omega) (by have := hr q hq; omega)
    have h1 := sum_weights_le d rank ((d + 1) ^ (r - 1)) (p0 :: ps) hb
    have h2 : (p0 :: ps).length * (d + 1) ^ (r - 1) < (d + 1) * (d + 1) ^ (r - 1) := by
      apply Nat.mul_lt_mul_of_lt_of_le
      · omega
      · exact le_refl _
      · exact Nat.pos_pow_of_pos _ (by omega)
    have h3 : (d + 1) * (d + 1) ^ (r - 1) = (d + 1) ^ r := by
      rw [mul_comm, ← pow_succ (d + 1) (r - 1)]
      congr 1
      omega
    omega

theorem findClass_mem (g : ClassGraph) (i : ℕ) (c : VariantClass)
    (h : findClass g i = some c) : c ∈ g ∧ c.id = i := by
  refine ⟨List.mem_of_find?_eq_some h, ?_⟩
  have := List.find?_some h
  simpa using this

/-- Main termination argument for the breadth-first walk: whenever the fuel
exceeds the measure of the queue, the walk consumes the queue. -/
theorem bfsRun_terminates (g : ClassGraph) (rank : ℕ → ℕ)
    (hr : ∀ c ∈ g, ∀ p ∈ c.inheritedDefaultOptions, rank p < rank c.id) :
    ∀ (fuel : ℕ) (queue : List ℕ) (acc : List (String × ℚ)),
      bfsMeasure (maxParents g) rank queue < fuel →
      (getDefaultOptionsRun g fuel queue acc).isSome := by
  intro fuel
  induction fuel with
  | zero => intro queue acc h; exact absurd h (Nat.not_lt_zero _)
  | succ fuel ih =>
    intro queue acc h
    cases queue with
    | nil => simp [getDefaultOptionsRun]
    | cons i rest =>
      have hwpos : 1 ≤ bfsWeight (maxParents g) rank i :=
        Nat.pos_pow_of_pos _ (by omega)
      have hmcons : bfsMeasure (maxParents g) rank (i :: rest) =
          bfsWeight (maxParents g) rank i + bfsMeasure (maxParents g) rank rest := by
        simp [bfsMeasure]
      simp only [getDefaultOptionsRun]
      cases hf : findClass g i with
      | none =>
        apply ih
        omega
      | some c =>
        apply ih
        obtain ⟨hcg, hcid⟩ := findClass_mem g i c hf
        have hpar : (c.inheritedDefaultOptions.map (bfsWeight (maxParents g) rank)).sum <
            (maxParents g + 1) ^ rank i := by
          rw [← hcid]
          exact sum_parents_lt (maxParents g) rank (rank c.id) c.inheritedDefaultOptions
            (length_le_maxParents g c hcg) (hr c hcg)
        have happ : bfsMeasure (maxParents g) rank (rest ++ c.inheritedDefaultOptions) =
            bfsMeasure (maxParents g) rank rest +
              (c.inheritedDefaultOptions.map (bfsWeight (maxParents g) rank)).sum := by
          simp [bfsMeasure]
        have hw : bfsWeight (maxParents g) rank i = (maxParents g + 1) ^ rank i := rfl
        omega

/-- C10: on a graph of default-option sources that is acyclic (witnessed by
a rank function every inheritance edge decreases), the breadth-first merge
of getDefaultOptions terminates and returns a mapping — even though the
walk keeps no visited set, so a shared ancestor reachable along several
paths is enqueued and merged once per path. -/
theorem c10_bfs_terminates_acyclic (g : ClassGraph) (c0 : ℕ) (rank : ℕ → ℕ)
    (hr : ∀ c ∈ g, ∀ p ∈ c.inheritedDefaultOptions, rank p < rank c.id) :
    ∃ fuel, (getDefaultOptions g fuel c0).isSome := by
  refine ⟨bfsMeasure (maxParents g) rank [c0] + 1, ?_⟩
  exact bfsRun_terminates g rank hr _ [c0] [] (Nat.lt_succ_self _)

/-- C10 witness: a diamond graph.  D (id 0) inherits [A (id 1), B (id 2)]
and both inherit the shared ancestor S (id 3), which is therefore dequeued
and merged twice; the walk still terminates and returns S's option. -/
theorem c10_witness :
    (∀ c ∈ [(⟨0, [], [1, 2]⟩ : VariantClass), ⟨1, [], [3]⟩, ⟨2, [], [3]⟩,
        ⟨3, [("s", 7)], []⟩],
      ∀ p ∈ c.inheritedDefaultOptions,
        [2, 1, 1, 0].getD p 0 < [2, 1, 1, 0].getD c.id 0) ∧
    (∃ fuel, (getDefaultOptions
      [(⟨0, [], [1, 2]⟩ : VariantClass), ⟨1, [], [3]⟩, ⟨2, [], [3]⟩, ⟨3, [("s", 7)], []⟩]
      fuel 0).isSome) ∧
    getDefaultOptions
      [(⟨0, [], [1, 2]⟩ : VariantClass), ⟨1, [], [3]⟩, ⟨2, [], [3]⟩, ⟨3, [("s", 7)], []⟩]
      10 0 = some [("s", 7)] :=
  ⟨by decide,
    c10_bfs_terminates_acyclic
      [(⟨0, [], [1, 2]⟩ : VariantClass), ⟨1, [], [3]⟩, ⟨2, [], [3]⟩, ⟨3, [("s", 7)], []⟩]
      0 (fun i => [2, 1, 1, 0].getD i 0) (by decide),
    rfl⟩

theorem lookupOpt_append (a b : List (String × ℚ)) (k : String) :
    lookupOpt (a ++ b) k =
      match lookupOpt a k with
      | some v => some v
      | none => lookupOpt b k := by
  induction a with
  | nil => simp [lookupOpt]
  | cons p a ih =>
    obtain ⟨k1, v1⟩ := p
    by_cases hk : k1 = k
    · simp [lookupOpt, hk]
    · simp only [List.cons_append, lookupOpt, if_neg hk]
      exact ih

theorem lookupOpt_mapRewrite (a b : List (String × ℚ)) (k : String) :
    lookupOpt (a.map (fun p => (p.1, (lookupOpt b p.1).getD p.2))) k =
      (lookupOpt a k).map (fun w => (lookupOpt b k).getD w) := by
  induction a with
  | nil => simp [lookupOpt]
  | cons p a ih =>
    obtain ⟨k1, v1⟩ := p
    by_cases hk : k1 = k
    · subst hk
      simp [lookupOpt]
    · simp only [List.map_cons, lookupOpt, if_neg hk]
      exact ih

theorem lookupOpt_filterNot (a b : List (String × ℚ)) (k : String) :
    lookupOpt (b.filter (fun p => ! hasKey a p.1)) k =
      if hasKey a k then none else lookupOpt b k := by
  induction b with
  | nil => simp [lookupOpt]
  | cons p b ih =>
    obtain ⟨k1, v1⟩ := p
    rw [List.filter_cons]
    by_cases hk : k1 = k
    · subst hk
      by_cases ha : hasKey a k1
      · simp [ha, ih]
      · simp [ha, lookupOpt]
    · by_cases ha : hasKey a k1
      · simp [ha, ih, lookupOpt, hk]
      · simp [ha, ih, lookupOpt, hk]

/-- Lookup in a spread {...a, ...b}: b wins per key, a fills the rest. -/
theorem lookupOpt_spreadMerge (a b : List (String × ℚ)) (k : String) :
    lookupOpt (spreadMerge a b) k =
      match lookupOpt b k with
      | some v => some v
      | none => lookupOpt a k := by
  rw [spreadMerge, lookupOpt_append, lookupOpt_mapRewrite, lookupOpt_filterNot]
  rcases hb : lookupOpt b k with _ | vb <;> rcases ha : lookupOpt a k with _ | va
  · simp [hasKey, ha, hb]
  · simp [hasKey, ha, hb]
  · simp [hasKey, ha, hb]
  · simp [hasKey, ha, hb]

theorem lookupOpt_setField (fs : List (String × ℚ)) (k : String) (v : ℚ) (key : String) :
    lookupOpt (setField fs k v) key = if k = key then some v else lookupOpt fs key := by
  induction fs with
  | nil => simp [setField, lookupOpt]
  | cons p fs ih =>
    obtain ⟨k1, v1⟩ := p
    by_cases h1 : k1 = k
    · subst h1
      by_cases h2 : k1 = key
      · simp [setField, lookupOpt, h2]
      · simp [setField, lookupOpt, h2]
    · by_cases h2 : k1 = key
      · subst h2
        have hne : ¬ (k = k1) := fun h => h1 h.symm
        simp [setField, h1, lookupOpt, hne]
      · simp only [setField, if_neg h1, lookupOpt, if_neg h2]
        exact ih

theorem hasKey_iff_memKeys (l : List (String × ℚ)) (k : String) :
    hasKey l k = true ↔ k ∈ l.map (fun p => p.1) := by
  induction l with
  | nil => simp [hasKey, lookupOpt]
  | cons p l ih =>
    obtain ⟨k1, v1⟩ := p
    by_cases hk : k1 = k
    · subst hk
      simp [hasKey, lookupOpt]
    · simp only [List.map_cons, List.mem_cons]
      rw [show hasKey ((k1, v1) :: l) k = hasKey l k from by simp [hasKey, lookupOpt, hk]]
      have hne : ¬ (k = k1) := fun h => hk h.symm
      simp [ih, hne]

theorem lookupOpt_eq_none_of_not_mem (l : List (String × ℚ)) (k : String)
    (h : k ∉ l.map (fun p => p.1)) : lookupOpt l k = none := by
  cases hl : lookupOpt l k with
  | none => rfl
  | some v =>
    exfalso
    apply h
    rw [← hasKey_iff_memKeys]
    simp [hasKey, hl]

/-- Reversing an association list with distinct keys does not change
lookup. -/
theorem lookupOpt_reverse_of_nodup (l : List (String × ℚ)) (k : String)
    (h : (l.map (fun p => p.1)).Nodup) :
    lookupOpt l.reverse k = lookupOpt l k := by
  induction l with
  | nil => rfl
  | cons p l ih =>
    obtain ⟨k1, v1⟩ := p
    simp only [List.map_cons, List.nodup_cons] at h
    rw [List.reverse_cons, lookupOpt_append, ih h.2]
    by_cases hk : k1 = k
    · subst hk
      rw [lookupOpt_eq_none_of_not_mem l k1 h.1]
      simp [lookupOpt]
    · simp only [lookupOpt, if_neg hk]
      rcases hl : lookupOpt l k with _ | v <;> simp [lookupOpt, hk]

/-- Lookup after the assignment loop: the last assignment of a key wins,
earlier fields survive otherwise. -/
theorem lookupOpt_assignAll (ms : List (String × ℚ)) :
    ∀ (fs : List (String × ℚ)) (key : String),
      lookupOpt (assignAll fs ms) key =
        match lookupOpt ms.reverse key with
        | some v => some v
        | none => lookupOpt fs key := by
  induction ms with
  | nil => intro fs key; simp [assignAll, lookupOpt]
  | cons m ms ih =>
    intro fs key
    obtain ⟨k0, v0⟩ := m
    have hstep : assignAll fs ((k0, v0) :: ms) = assignAll (setField fs k0 v0) ms := rfl
    rw [hstep, ih (setField fs k0 v0) key, List.reverse_cons, lookupOpt_append]
    rcases hrev : lookupOpt ms.reverse key with _ | v
    · simp only [lookupOpt_setField]
      by_cases hk : k0 = key <;> simp [lookupOpt, hk]
    · rfl

theorem spreadMerge_nodupKeys (a b : List (String × ℚ))
    (ha : (a.map (fun p => p.1)).Nodup) (hb : (b.map (fun p => p.1)).Nodup) :
    ((spreadMerge a b).map (fun p => p.1)).Nodup := by
  rw [spreadMerge, List.map_append]
  apply List.Nodup.append
  · rw [List.map_map]
    exact ha
  · exact ((List.filter_sublist b).map (fun p => p.1)).nodup hb
  · intro k hk1 hk2
    rw [List.map_map] at hk1
    rcases List.mem_map.mp hk2 with ⟨p, hp, hpk⟩
    rcases List.mem_filter.mp hp with ⟨hpb, hpcond⟩
    have : hasKey a p.1 = false := by
      rcases h : hasKey a p.1 with _ | _
      · rfl
      · rw [h] at hpcond
        simp at hpcond
    rw [hpk] at this
    rw [show (fun p => p.1) ∘ (fun p : String × ℚ => (p.1, (lookupOpt b p.1).getD p.2)) =
      (fun p : String × ℚ => p.1) from rfl] at hk1
    rw [← hasKey_iff_memKeys] at hk1
    rw [hk1] at this
    cases this

theorem validateLoop_none (defs : List (String × ℚ)) :
    ∀ ks : List String, (∀ k ∈ ks, hasKey defs k = true) →
      validateLoop defs ks = none := by
  intro ks
  induction ks with
  | nil => intro _; rfl
  | cons k ks ih =>
    intro h
    have hk := h k (List.mem_cons_self _ _)
    simp only [validateLoop, hk]
    simp only [not_true_eq_false, if_false]
    exact ih (fun q hq => h q (List.mem_cons_of_mem _ hq))

theorem validateLoop_some (defs : List (String × ℚ)) :
    ∀ ks : List String, (∃ k ∈ ks, hasKey defs k = false) →
      ∃ k, k ∈ ks ∧ hasKey defs k = false ∧
        validateLoop defs ks = some (.invalidOption k) := by
  intro ks
  induction ks with
  | nil => rintro ⟨k, hk, _⟩; simp at hk
  | cons k0 ks ih =>
    rintro ⟨k, hk, hkey⟩
    by_cases h0 : hasKey defs k0
    · rcases List.mem_cons.mp hk with rfl | hk2
      · rw [h0] at hkey
        cases hkey
      · obtain ⟨k2, hk2', hkey2, hval⟩ := ih ⟨k, hk2, hkey⟩
        refine ⟨k2, List.mem_cons_of_mem _ hk2', hkey2, ?_⟩
        simp only [validateLoop, h0, not_true_eq_false, if_false]
        exact hval
    · refine ⟨k0, List.mem_cons_self _ _, by simpa using h0, ?_⟩
      simp only [validateLoop]
      rw [if_pos (by simpa using h0)]

/-- C7, amended: provided the target's direct prototype is the calling
variant's (otherwise applyOptions is a silent no-op, see
c7_counterexample) and the breadth-first merge completes: if some override
key is absent from the merged default set, applyOptions raises
InvalidOptionError naming such a key and leaves the target unchanged
(all-or-nothing, since validation precedes every assignment); if all
override keys are present, it succeeds and every key of the merged set is
assigned onto the target with override values taking per-key precedence
over merged defaults, other fields surviving. -/
theorem c7_apply_options (g : ClassGraph) (fuel : ℕ) (options : List (String × ℚ))
    (destObj : JSTarget) (clazz : ℕ) (defs : List (String × ℚ))
    (hproto : destObj.proto = clazz)
    (hdefs : getDefaultOptions g fuel clazz = some defs)
    (hnd : (defs.map (fun p => p.1)).Nodup)
    (hno : (options.map (fun p => p.1)).Nodup) :
    ((∃ k ∈ options.map (fun p => p.1), hasKey defs k = false) →
      ∃ k, k ∈ options.map (fun p => p.1) ∧ hasKey defs k = false ∧
        applyOptions g fuel options destObj clazz = (destObj, some (.invalidOption k))) ∧
    ((∀ k ∈ options.map (fun p => p.1), hasKey defs k = true) →
      ∃ t2 : JSTarget,
        applyOptions g fuel options destObj clazz = (t2, none) ∧
        t2.proto = destObj.proto ∧
        ∀ key : String,
          lookupOpt t2.fields key =
            match lookupOpt options key with
            | some v => some v
            | none =>
              match lookupOpt defs key with
              | some v => some v
              | none => lookupOpt destObj.fields key) := by
  constructor
  · intro hex
    obtain ⟨k, hk, hkey, hval⟩ := validateLoop_some defs _ hex
    refine ⟨k, hk, hkey, ?_⟩
    simp [applyOptions, hproto, hdefs, hval]
  · intro hall
    have hval := validateLoop_none defs _ hall
    refine ⟨{ destObj with
        fields := assignAll destObj.fields (spreadMerge defs options) }, ?_, rfl, ?_⟩
    · simp [applyOptions, hproto, hdefs, hval]
    · intro key
      simp only
      rw [lookupOpt_assignAll,
        lookupOpt_reverse_of_nodup _ _ (spreadMerge_nodupKeys defs options hnd hno),
        lookupOpt_spreadMerge]
      rcases ho : lookupOpt options key with _ | v <;>
        rcases hd : lookupOpt defs key with _ | w <;> simp

/-- C7 counterexample to the original claim: when the target's direct
prototype (class 7) is not the calling class (0), applyOptions is a silent
no-op — it neither validates nor assigns — so the invalid override key
"bogus", absent from the merged default set {size}, raises no
InvalidOptionError. -/
theorem c7_counterexample :
    getDefaultOptions [⟨0, [("size", 1)], []⟩] 5 0 = some [("size", 1)] ∧
    hasKey [("size", 1)] ("bogus") = false ∧
    applyOptions [⟨0, [("size", 1)], []⟩] 5 [("bogus", 2)] ⟨7, []⟩ 0 =
      (⟨7, []⟩, none) := by
  exact ⟨rfl, rfl, rfl⟩

/-- C7 witness: a matching-prototype target with defaults {size: 1,
color: 2} and override {size: 3} satisfies the amended hypotheses. -/
theorem c7_witness :
    ((⟨0, [("old", 9)]⟩ : JSTarget).proto = 0) ∧
    getDefaultOptions [⟨0, [("size", 1), ("color", 2)], []⟩] 5 0 =
      some [("size", 1), ("color", 2)] ∧
    (([("size", 1), ("color", 2)] : List (String × ℚ)).map (fun p => p.1)).Nodup ∧
    (([("size", 3)] : List (String × ℚ)).map (fun p => p.1)).Nodup ∧
    (((∃ k ∈ ([("size", 3)] : List (String × ℚ)).map (fun p => p.1),
        hasKey [("size", 1), ("color", 2)] k = false) →
      ∃ k, k ∈ ([("size", 3)] : List (String × ℚ)).map (fun p => p.1) ∧
        hasKey [("size", 1), ("color", 2)] k = false ∧
        applyOptions [⟨0, [("size", 1), ("color", 2)], []⟩] 5 [("size", 3)]
          ⟨0, [("old", 9)]⟩ 0 = (⟨0, [("old", 9)]⟩, some (.invalidOption k))) ∧
    ((∀ k ∈ ([("size", 3)] : List (String × ℚ)).map (fun p => p.1),
        hasKey [("size", 1), ("color", 2)] k = true) →
      ∃ t2 : JSTarget,
        applyOptions [⟨0, [("size", 1), ("color", 2)], []⟩] 5 [("size", 3)]
          ⟨0, [("old", 9)]⟩ 0 = (t2, none) ∧
        t2.proto = (⟨0, [("old", 9)]⟩ : JSTarget).proto ∧
        ∀ key : String,
          lookupOpt t2.fields key =
            match lookupOpt [("size", 3)] key with
            | some v => some v
            | none =>
              match lookupOpt [("size", 1), ("color", 2)] key with
              | some v => some v
              | none => lookupOpt (⟨0, [("old", 9)]⟩ : JSTarget).fields key)) :=
  ⟨rfl, rfl, by decide, by decide,
    c7_apply_options [⟨0, [("size", 1), ("color", 2)], []⟩] 5 [("size", 3)]
      ⟨0, [("old", 9)]⟩ 0 [("size", 1), ("color", 2)] rfl rfl (by decide) (by decide)⟩

/-- C8, amended: parseFont fails with InvalidFormatError exactly when
cutting the input at every single space character (the semantics of
JavaScript split(" ")) yields a number of pieces other than two —
empty pieces count, and other whitespace does not separate (the original
claim's "whitespace-separated" is refuted by c8_counterexample, a
tab-separated input that fails).  On success the size is the value of the
leading floating-point numeral of the first piece, the unit is the
remainder of that piece after the textual length of the parsed size's
canonical rendering, and the family is the second piece: "16px Arial"
yields size 16, unit "px", family "Arial"; "16.0px Arial" yields unit
".0px" because the canonical rendering of 16 has two characters; "bad"
fails. -/
theorem c8_parse_font :
    (∀ s : String, (∃ e, parseFont s = .error e) ↔
      ((splitChar ' ' s.data).map String.mk).length ≠ 2) ∧
    (∀ s sizeWithUnit family, (splitChar ' ' s.data).map String.mk = [sizeWithUnit, family] →
      parseFont s = .ok
        { size := jsParseFloat sizeWithUnit, family := family,
          sizeUnit := jsSubstring sizeWithUnit (numToString (jsParseFloat sizeWithUnit)).length }) ∧
    parseFont "16px Arial" = .ok { size := some 16, family := "Arial", sizeUnit := "px" } ∧
    parseFont "bad" = .error (.invalidFont "bad") ∧
    parseFont "16.0px Arial" = .ok { size := some 16, family := "Arial", sizeUnit := ".0px" } ∧
    jsParseFloat ("16px") = some 16 ∧ numToString (some 16) = "16" ∧
    jsParseFloat ("bad") = none := by
  refine ⟨?_, ?_, rfl, rfl, rfl, rfl, rfl, rfl⟩
  · intro s
    rcases h : (splitChar ' ' s.data).map String.mk with _ | ⟨a, _ | ⟨b, _ | ⟨c, l⟩⟩⟩ <;>
      simp [parseFont, h]
  · intro s sizeWithUnit family h
    simp [parseFont, h]

/-- C8 counterexample to the original claim: a tab character is whitespace,
so "16px\tArial" consists of two whitespace-separated tokens, yet parseFont
rejects it, because the source splits only at U+0020. -/
theorem c8_counterexample :
    parseFont "16px\tArial" = .error (.invalidFont "16px\tArial") ∧
    (splitChar '\t' ("16px\tArial").data).map String.mk = ["16px", "Arial"] ∧
    Char.isWhitespace '\t' = true := by
  exact ⟨rfl, by decide, by decide⟩

/-- C8 witness: "16px Arial" splits into exactly two pieces at the space,
and parseFont returns the Font built from the leading numeral of the first
piece. -/
theorem c8_witness :
    (splitChar ' ' ("16px Arial").data).map String.mk = ["16px", "Arial"] ∧
    parseFont "16px Arial" = .ok
      { size := jsParseFloat "16px", family := "Arial",
        sizeUnit := jsSubstring "16px" (numToString (jsParseFloat "16px")).length } :=
  ⟨by decide, c8_parse_font.2.1 "16px Arial" "16px" "Arial" (by decide)⟩

end Vidar
